import Mathlib

/-!
# dpd-hazsubstance: the version resolver and the retrying downloader

A shallow embedding of `dpd_downloader.go`.

* Go strings and byte slices are lists of bytes (`Bytes`); a string constant of the
  source is written `utf8 "..."`.
* Everything the program does to the outside (HTTP calls, the file system, sleeping,
  printing) is explicit: the answers of the outside are read from an `Env`, the effects
  are recorded in a `World` (file system and chronological trace).
* The library calls whose behaviour the program depends on are modelled after the Go
  standard library: `encoding/json` (`Decoder.Decode` into `VersionResponse`) and
  `path/filepath` (`Join`, `Clean`, with `/` as separator).
-/

namespace DpdDownloader

/-- A Go string or byte slice: its bytes, each below 256. -/
abbrev Bytes := List Nat

/-! ## unicode/utf8 -/

/-- The UTF-8 encoding of a rune (utf8.EncodeRune); surrogates and values
above U+10FFFF are encoded as U+FFFD. -/
def EncodeRune (r : Nat) : Bytes :=
  if r < 0x80 then [r]
  else if r < 0x800 then [0xC0 + r / 64, 0x80 + r % 64]
  else if (0xD800 ≤ r ∧ r < 0xE000) ∨ 0x10FFFF < r then [0xEF, 0xBF, 0xBD]
  else if r < 0x10000 then [0xE0 + r / 4096, 0x80 + r / 64 % 64, 0x80 + r % 64]
  else [0xF0 + r / 262144, 0x80 + r / 4096 % 64, 0x80 + r / 64 % 64, 0x80 + r % 64]

/-- The bytes of a string constant of the source. -/
def utf8 (s : String) : Bytes := s.data.flatMap fun c => EncodeRune c.toNat

/-- The size utf8.DecodeRune reports for the bytes `c0 :: rest`, `c0` not ASCII:
the length of the well-formed sequence at the front, and 1 when there is none
(DecodeRune then returns RuneError). -/
def DecodeRuneSize (c0 : Nat) (rest : Bytes) : Nat :=
  if 0xC2 ≤ c0 ∧ c0 ≤ 0xDF then
    match rest with
    | c1 :: _ => if 0x80 ≤ c1 ∧ c1 ≤ 0xBF then 2 else 1
    | _ => 1
  else if 0xE0 ≤ c0 ∧ c0 ≤ 0xEF then
    match rest with
    | c1 :: c2 :: _ =>
      if (if c0 = 0xE0 then 0xA0 else 0x80) ≤ c1 ∧ c1 ≤ (if c0 = 0xED then 0x9F else 0xBF)
          ∧ 0x80 ≤ c2 ∧ c2 ≤ 0xBF then 3 else 1
    | _ => 1
  else if 0xF0 ≤ c0 ∧ c0 ≤ 0xF4 then
    match rest with
    | c1 :: c2 :: c3 :: _ =>
      if (if c0 = 0xF0 then 0x90 else 0x80) ≤ c1 ∧ c1 ≤ (if c0 = 0xF4 then 0x8F else 0xBF)
          ∧ 0x80 ≤ c2 ∧ c2 ≤ 0xBF ∧ 0x80 ≤ c3 ∧ c3 ≤ 0xBF then 4 else 1
    | _ => 1
  else 1

/-! ## encoding/json: the scanner -/

/-- A JSON value as the decoder sees it: strings are unquoted, a number keeps its
literal, the members of an object keep their order and their duplicates. -/
inductive JSON where
  | null
  | bool (b : Bool)
  | number (lit : Bytes)
  | string (s : Bytes)
  | array (items : List JSON)
  | object (members : List (Bytes × JSON))

/-- The value of a hexadecimal digit, if the byte is one. -/
def hexDigit (c : Nat) : Option Nat :=
  if 48 ≤ c ∧ c ≤ 57 then some (c - 48)
  else if 97 ≤ c ∧ c ≤ 102 then some (c - 87)
  else if 65 ≤ c ∧ c ≤ 70 then some (c - 55)
  else none

/-- The rune of the escape `\uXXXX` at the front of the bytes (getu4), none when the
bytes do not start with such an escape. -/
def getu4 : Bytes → Option Nat
  | b0 :: b1 :: x0 :: x1 :: x2 :: x3 :: _ =>
    if b0 = 92 ∧ b1 = 117 then
      match hexDigit x0, hexDigit x1, hexDigit x2, hexDigit x3 with
      | some h0, some h1, some h2, some h3 => some (h0 * 4096 + h1 * 256 + h2 * 16 + h3)
      | _, _, _, _ => none
    else none
  | _ => none

/-- The rune of a UTF-16 surrogate pair (utf16.DecodeRune), U+FFFD when the two
are not a high surrogate followed by a low one. -/
def utf16DecodeRune (r1 r2 : Nat) : Nat :=
  if 0xD800 ≤ r1 ∧ r1 < 0xDC00 ∧ 0xDC00 ≤ r2 ∧ r2 < 0xE000 then
    (r1 - 0xD800) * 1024 + (r2 - 0xDC00) + 0x10000
  else 0xFFFD

/-- The byte a one-letter escape stands for. -/
def unescape (c : Nat) : Nat :=
  if c = 98 then 8 else if c = 102 then 12 else if c = 110 then 10
  else if c = 114 then 13 else if c = 116 then 9 else c

/-- One round of the loop of unquoteBytes at the bytes `c :: rest`: the bytes written
and the number of bytes read. An escape is replaced, a surrogate escape without its
partner and a byte that is not part of well-formed UTF-8 become U+FFFD. The scanner has
accepted the literal before, so the cases in which Go gives up (a raw quote or control
byte, an unknown or cut escape) do not occur; such a byte is copied. -/
def unquoteStep (c : Nat) (rest : Bytes) : Bytes × Nat :=
  if c = 92 then
    match rest with
    | [] => ([c], 1)
    | e :: _ =>
      if e = 117 then
        match getu4 (c :: rest) with
        | some rr =>
          if 0xD800 ≤ rr ∧ rr < 0xE000 then
            match getu4 (rest.drop 5) with
            | some rr1 =>
              if utf16DecodeRune rr rr1 ≠ 0xFFFD then (EncodeRune (utf16DecodeRune rr rr1), 12)
              else (EncodeRune 0xFFFD, 6)
            | none => (EncodeRune 0xFFFD, 6)
          else (EncodeRune rr, 6)
        | none => ([c], 1)
      else ([unescape e], 2)
  else if c < 0x80 then ([c], 1)
  else if DecodeRuneSize c rest = 1 then (EncodeRune 0xFFFD, 1)
  else ((c :: rest).take (DecodeRuneSize c rest), DecodeRuneSize c rest)

/-- The loop of unquoteBytes: `skip` bytes at the front were read by the round before. -/
def unquoteFrom (skip : Nat) : Bytes → Bytes
  | [] => []
  | c :: rest =>
    match skip with
    | n + 1 => unquoteFrom n rest
    | 0 => (unquoteStep c rest).1 ++ unquoteFrom ((unquoteStep c rest).2 - 1) rest

/-- The text of a string literal whose bytes between the quotes are given
(unquoteBytes). -/
def unquote (s : Bytes) : Bytes := unquoteFrom 0 s

/-- The step functions of the scanner (scanner.go). -/
inductive State where
  | stateBeginValueOrEmpty | stateBeginValue | stateBeginStringOrEmpty | stateBeginString
  | stateEndValue | stateEndTop
  | stateInString | stateInStringEsc
  | stateInStringEscU | stateInStringEscU1 | stateInStringEscU12 | stateInStringEscU123
  | stateNeg | state1 | state0 | stateDot | stateDot0 | stateE | stateESign | stateE0
  | stateT | stateTr | stateTru
  | stateF | stateFa | stateFal | stateFals
  | stateN | stateNu | stateNul
  | stateError
  deriving DecidableEq, Repr

/-- An entry of the scanner's parse stack (parseObjectKey, parseObjectValue,
parseArrayValue), together with what has been read of the enclosing value:
the members or items completed so far and the key of the member being read. -/
inductive Frame where
  | parseObjectKey (members : List (Bytes × JSON)) (key : Bytes)
  | parseObjectValue (members : List (Bytes × JSON)) (key : Bytes)
  | parseArrayValue (items : List JSON)

/-- The scanner reading the first value of a stream: its step function, its parse
stack (innermost first), the bytes of the string or number literal being read, and
the value once it is complete. -/
structure scanner where
  step : State
  parseState : List Frame
  tok : Bytes
  value : Option JSON

/-- The largest nesting depth the scanner accepts. -/
def maxNestingDepth : Nat := 10000

/-- Go's isSpace. -/
def isSpace (c : Nat) : Bool := c = 32 || c = 9 || c = 13 || c = 10

/-- The scanner at the start of a value (scanner.reset). -/
def scanner.reset : scanner :=
  ⟨State.stateBeginValue, [], [], none⟩

/-- The scanner after a syntax error. -/
def scanner.error (s : scanner) : scanner :=
  { s with step := State.stateError }

/-- Enters an object or an array (pushParseState): an error beyond the maximal depth. -/
def scanner.pushParseState (s : scanner) (f : Frame) (successState : State) : scanner :=
  if s.parseState.length + 1 ≤ maxNestingDepth then
    { s with parseState := f :: s.parseState, step := successState }
  else { s with parseState := f :: s.parseState, step := State.stateError }

/-- A value has been read to its end: it is the value of the stream when the parse
stack is empty (the scanner then goes to stateEndTop), and otherwise the next item or
member value of the enclosing array or object. -/
def scanner.complete (s : scanner) (x : JSON) : scanner :=
  match s.parseState with
  | [] => { s with step := State.stateEndTop, value := some x, tok := [] }
  | Frame.parseObjectValue ms k :: ps =>
    { s with step := State.stateEndValue, tok := [],
             parseState := Frame.parseObjectValue (ms ++ [(k, x)]) k :: ps }
  | Frame.parseArrayValue xs :: ps =>
    { s with step := State.stateEndValue, tok := [],
             parseState := Frame.parseArrayValue (xs ++ [x]) :: ps }
  | Frame.parseObjectKey _ _ :: _ => { s with step := State.stateEndValue, tok := [] }

/-- The step stateEndValue: after a value inside an object or array. -/
def stateEndValue (s : scanner) (c : Nat) : scanner :=
  match s.parseState with
  | [] => { s with step := State.stateEndTop }
  | f :: ps =>
    if isSpace c then { s with step := State.stateEndValue }
    else
      match f with
      | Frame.parseObjectKey ms k =>
        if c = 58 then
          { s with parseState := Frame.parseObjectValue ms k :: ps, step := State.stateBeginValue }
        else s.error
      | Frame.parseObjectValue ms k =>
        if c = 44 then
          { s with parseState := Frame.parseObjectKey ms k :: ps, step := State.stateBeginString }
        else if c = 125 then scanner.complete { s with parseState := ps } (JSON.object ms)
        else s.error
      | Frame.parseArrayValue xs =>
        if c = 44 then { s with step := State.stateBeginValue }
        else if c = 93 then scanner.complete { s with parseState := ps } (JSON.array xs)
        else s.error

/-- The end of a number literal: the byte `c` after it is looked at by stateEndValue
unless the number is the value of the stream. -/
def endNumber (s : scanner) (c : Nat) : scanner :=
  let s1 := s.complete (JSON.number s.tok)
  match s1.value with
  | some _ => s1
  | none => stateEndValue s1 c

/-- The step stateBeginValue. -/
def stateBeginValue (s : scanner) (c : Nat) : scanner :=
  if isSpace c then s
  else if c = 123 then s.pushParseState (Frame.parseObjectKey [] []) State.stateBeginStringOrEmpty
  else if c = 91 then s.pushParseState (Frame.parseArrayValue []) State.stateBeginValueOrEmpty
  else if c = 34 then { s with step := State.stateInString, tok := [] }
  else if c = 45 then { s with step := State.stateNeg, tok := [c] }
  else if c = 48 then { s with step := State.state0, tok := [c] }
  else if c = 116 then { s with step := State.stateT }
  else if c = 102 then { s with step := State.stateF }
  else if c = 110 then { s with step := State.stateN }
  else if 49 ≤ c ∧ c ≤ 57 then { s with step := State.state1, tok := [c] }
  else s.error

/-- The step stateBeginString. -/
def stateBeginString (s : scanner) (c : Nat) : scanner :=
  if isSpace c then s
  else if c = 34 then { s with step := State.stateInString, tok := [] }
  else s.error

/-- The step state0: after the integer part of a number. -/
def state0 (s : scanner) (c : Nat) : scanner :=
  if c = 46 then { s with step := State.stateDot, tok := s.tok ++ [c] }
  else if c = 101 ∨ c = 69 then { s with step := State.stateE, tok := s.tok ++ [c] }
  else endNumber s c

/-- One step of a literal: the expected letter leads on, any other byte is an error. -/
def expect (s : scanner) (c want : Nat) (next : scanner) : scanner :=
  if c = want then next else s.error

/-- One byte through the scanner. Once the value of the stream is complete, or after
an error, nothing more is read. -/
def scanner.next (s : scanner) (c : Nat) : scanner :=
  match s.value with
  | some _ => s
  | none =>
    match s.step with
    | State.stateError => s
    | State.stateEndTop => s
    | State.stateBeginValue => stateBeginValue s c
    | State.stateBeginValueOrEmpty =>
      if isSpace c then s
      else if c = 93 then stateEndValue s c
      else stateBeginValue s c
    | State.stateBeginStringOrEmpty =>
      if isSpace c then s
      else if c = 125 then
        match s.parseState with
        | Frame.parseObjectKey ms k :: ps =>
          stateEndValue { s with parseState := Frame.parseObjectValue ms k :: ps } c
        | _ => stateEndValue s c
      else stateBeginString s c
    | State.stateBeginString => stateBeginString s c
    | State.stateEndValue => stateEndValue s c
    | State.stateInString =>
      if c = 34 then
        match s.parseState with
        | Frame.parseObjectKey ms _ :: ps =>
          { s with step := State.stateEndValue, tok := [],
                   parseState := Frame.parseObjectKey ms (unquote s.tok) :: ps }
        | _ => s.complete (JSON.string (unquote s.tok))
      else if c = 92 then { s with step := State.stateInStringEsc, tok := s.tok ++ [c] }
      else if c < 0x20 then s.error
      else { s with tok := s.tok ++ [c] }
    | State.stateInStringEsc =>
      if c = 98 ∨ c = 102 ∨ c = 110 ∨ c = 114 ∨ c = 116 ∨ c = 92 ∨ c = 47 ∨ c = 34 then
        { s with step := State.stateInString, tok := s.tok ++ [c] }
      else if c = 117 then { s with step := State.stateInStringEscU, tok := s.tok ++ [c] }
      else s.error
    | State.stateInStringEscU =>
      if (hexDigit c).isSome then { s with step := State.stateInStringEscU1, tok := s.tok ++ [c] }
      else s.error
    | State.stateInStringEscU1 =>
      if (hexDigit c).isSome then { s with step := State.stateInStringEscU12, tok := s.tok ++ [c] }
      else s.error
    | State.stateInStringEscU12 =>
      if (hexDigit c).isSome then { s with step := State.stateInStringEscU123, tok := s.tok ++ [c] }
      else s.error
    | State.stateInStringEscU123 =>
      if (hexDigit c).isSome then { s with step := State.stateInString, tok := s.tok ++ [c] }
      else s.error
    | State.stateNeg =>
      if c = 48 then { s with step := State.state0, tok := s.tok ++ [c] }
      else if 49 ≤ c ∧ c ≤ 57 then { s with step := State.state1, tok := s.tok ++ [c] }
      else s.error
    | State.state1 =>
      if 48 ≤ c ∧ c ≤ 57 then { s with tok := s.tok ++ [c] }
      else state0 s c
    | State.state0 => state0 s c
    | State.stateDot =>
      if 48 ≤ c ∧ c ≤ 57 then { s with step := State.stateDot0, tok := s.tok ++ [c] }
      else s.error
    | State.stateDot0 =>
      if 48 ≤ c ∧ c ≤ 57 then { s with tok := s.tok ++ [c] }
      else if c = 101 ∨ c = 69 then { s with step := State.stateE, tok := s.tok ++ [c] }
      else endNumber s c
    | State.stateE =>
      if c = 43 ∨ c = 45 then { s with step := State.stateESign, tok := s.tok ++ [c] }
      else if 48 ≤ c ∧ c ≤ 57 then { s with step := State.stateE0, tok := s.tok ++ [c] }
      else s.error
    | State.stateESign =>
      if 48 ≤ c ∧ c ≤ 57 then { s with step := State.stateE0, tok := s.tok ++ [c] }
      else s.error
    | State.stateE0 =>
      if 48 ≤ c ∧ c ≤ 57 then { s with tok := s.tok ++ [c] }
      else endNumber s c
    | State.stateT => expect s c 114 { s with step := State.stateTr }
    | State.stateTr => expect s c 117 { s with step := State.stateTru }
    | State.stateTru => expect s c 101 (s.complete (JSON.bool true))
    | State.stateF => expect s c 97 { s with step := State.stateFa }
    | State.stateFa => expect s c 108 { s with step := State.stateFal }
    | State.stateFal => expect s c 115 { s with step := State.stateFals }
    | State.stateFals => expect s c 101 (s.complete (JSON.bool false))
    | State.stateN => expect s c 117 { s with step := State.stateNu }
    | State.stateNu => expect s c 108 { s with step := State.stateNul }
    | State.stateNul => expect s c 108 (s.complete JSON.null)

/-- The errors of Decoder.Decode. -/
inductive JSONError where
  | EOF
  | ErrUnexpectedEOF
  | SyntaxError
  | UnmarshalTypeError (value : String)
  deriving DecidableEq, Repr

/-- The first JSON value of the stream (Decoder.readValue). The bytes after the value
are not read. At the end of the stream the scanner is given a space: a number or
literal that is the whole stream ends there. -/
def readValue (body : Bytes) : Except JSONError JSON :=
  let s := body.foldl scanner.next scanner.reset
  match s.value with
  | some x => Except.ok x
  | none =>
    if s.step = State.stateError then Except.error JSONError.SyntaxError
    else
      match (s.next 32).value with
      | some x => Except.ok x
      | none =>
        if body.all isSpace then Except.error JSONError.EOF
        else Except.error JSONError.ErrUnexpectedEOF

/-! ## encoding/json: decoding into VersionResponse -/

/-- The struct the version response is decoded into. -/
structure VersionResponse where
  Version : Bytes
  deriving DecidableEq, Repr

/-- The loop of foldName, `skip` bytes at the front belonging to the rune folded
before: ASCII letters become upper case and a rune becomes the smallest rune of its
case-folding orbit, which turns U+017F (long s) into `S` and U+212A (Kelvin sign) into
`K`. Every other rune outside ASCII folds to a rune outside ASCII and is kept as it is
here: that does not change whether a key folds to the same bytes as an ASCII name. -/
def foldNameFrom (skip : Nat) : Bytes → Bytes
  | [] => []
  | c :: rest =>
    match skip with
    | n + 1 => foldNameFrom n rest
    | 0 =>
      if 97 ≤ c ∧ c ≤ 122 then (c - 32) :: foldNameFrom 0 rest
      else if c = 0xC5 ∧ rest.head? = some 0xBF then 83 :: foldNameFrom 1 rest
      else if c = 0xE2 ∧ rest.take 2 = [0x84, 0xAA] then 75 :: foldNameFrom 2 rest
      else c :: foldNameFrom 0 rest

/-- The folded form of an object key (foldName). -/
def foldName (key : Bytes) : Bytes := foldNameFrom 0 key

/-- The name of the only field of VersionResponse, from its tag. -/
def fieldName : Bytes := utf8 "version"

/-- Whether an object key selects the field: an exact match of the name, and otherwise
a match of the folded names. -/
def matchesField (key : Bytes) : Bool :=
  key = fieldName || foldName key = foldName fieldName

/-- Stores a JSON value into a string (the decoder's value on a field of kind
string): a string is stored, null leaves the field as it is, every other value is an
UnmarshalTypeError and leaves the field as it is. -/
def storeString (x : JSON) (field : Bytes) : Bytes × Option JSONError :=
  match x with
  | JSON.string s => (s, none)
  | JSON.null => (field, none)
  | JSON.bool _ => (field, some (JSONError.UnmarshalTypeError "bool"))
  | JSON.number _ => (field, some (JSONError.UnmarshalTypeError "number"))
  | JSON.array _ => (field, some (JSONError.UnmarshalTypeError "array"))
  | JSON.object _ => (field, some (JSONError.UnmarshalTypeError "object"))

/-- Keeps the first error (saveError). -/
def saveError (saved err : Option JSONError) : Option JSONError :=
  match saved with
  | some e => some e
  | none => err

/-- Decodes the members of an object into the struct (the decoder's object): the
members are taken in their order, a member whose key selects the field is stored into
it, every other member is skipped; decoding goes on after a type error. -/
def decodeObject : List (Bytes × JSON) → VersionResponse → Option JSONError →
    VersionResponse × Option JSONError
  | [], v, saved => (v, saved)
  | (key, x) :: ms, v, saved =>
    if matchesField key then
      decodeObject ms ⟨(storeString x v.Version).1⟩ (saveError saved (storeString x v.Version).2)
    else decodeObject ms v saved

/-- Decodes a JSON value into the struct (the decoder's unmarshal): null leaves the
struct as it is, a value that is neither an object nor null is an UnmarshalTypeError. -/
def unmarshal (x : JSON) (v : VersionResponse) : VersionResponse × Option JSONError :=
  match x with
  | JSON.object ms => decodeObject ms v none
  | JSON.null => (v, none)
  | JSON.bool _ => (v, some (JSONError.UnmarshalTypeError "bool"))
  | JSON.number _ => (v, some (JSONError.UnmarshalTypeError "number"))
  | JSON.string _ => (v, some (JSONError.UnmarshalTypeError "string"))
  | JSON.array _ => (v, some (JSONError.UnmarshalTypeError "array"))

/-- The call `json.NewDecoder(body).Decode(&v)`: the struct afterwards and the error. -/
def Decode (body : Bytes) (v : VersionResponse) : VersionResponse × Option JSONError :=
  match readValue body with
  | Except.error e => (v, some e)
  | Except.ok x => unmarshal x v

/-! ## JSON text -/

/-- Whitespace of JSON text: spaces, tabs, line feeds and carriage returns. -/
def Blank (ws : Bytes) : Prop := ∀ c ∈ ws, c = 32 ∨ c = 9 ∨ c = 10 ∨ c = 13

/-- Decimal digits. -/
def Digits (ds : Bytes) : Prop := ∀ c ∈ ds, 48 ≤ c ∧ c ≤ 57

/-- A number of JSON text: an optional minus sign, an integer part without a leading
zero, an optional fraction and an optional exponent. -/
def NumberLit (t : Bytes) : Prop :=
  ∃ sign int frac exp, t = sign ++ int ++ frac ++ exp
    ∧ (sign = [] ∨ sign = [45])
    ∧ (int = [48] ∨ ∃ d ds, int = d :: ds ∧ 49 ≤ d ∧ d ≤ 57 ∧ Digits ds)
    ∧ (frac = [] ∨ ∃ ds, frac = 46 :: ds ∧ ds ≠ [] ∧ Digits ds)
    ∧ (exp = [] ∨ ∃ e sg ds, exp = e :: sg ++ ds ∧ (e = 101 ∨ e = 69)
        ∧ (sg = [] ∨ sg = [43] ∨ sg = [45]) ∧ ds ≠ [] ∧ Digits ds)

/-- A Unicode scalar value: a code point that is not a surrogate. -/
def Scalar (r : Nat) : Prop := r < 0xD800 ∨ (0xE000 ≤ r ∧ r ≤ 0x10FFFF)

/-- The number four hexadecimal digits stand for. -/
def hex4 (x0 x1 x2 x3 : Nat) : Option Nat :=
  match hexDigit x0, hexDigit x1, hexDigit x2, hexDigit x3 with
  | some h0, some h1, some h2, some h3 => some (h0 * 4096 + h1 * 256 + h2 * 16 + h3)
  | _, _, _, _ => none

/-- The characters between the quotes of a string of JSON text, with the string they
stand for, in UTF-8: a character that is not a quote, a backslash or a control
character stands for itself, a two-character escape for its character, an escape
`\uXXXX` for the code point XXXX, and two such escapes that are a high and a low
surrogate for the code point of the pair. An escape of a surrogate without its
partner stands for no character and is not part of such a string. -/
inductive StringLit : Bytes → Bytes → Prop where
  | nil : StringLit [] []
  | char (r : Nat) (raw s : Bytes) : Scalar r → 0x20 ≤ r → r ≠ 0x22 → r ≠ 0x5C →
      StringLit raw s → StringLit (EncodeRune r ++ raw) (EncodeRune r ++ s)
  | escape (e b : Nat) (raw s : Bytes) :
      (e, b) ∈ [(34, 34), (92, 92), (47, 47), (98, 8), (102, 12), (110, 10), (114, 13), (116, 9)] →
      StringLit raw s → StringLit (92 :: e :: raw) (b :: s)
  | unicode (x0 x1 x2 x3 r : Nat) (raw s : Bytes) : hex4 x0 x1 x2 x3 = some r → Scalar r →
      StringLit raw s →
      StringLit (92 :: 117 :: x0 :: x1 :: x2 :: x3 :: raw) (EncodeRune r ++ s)
  | pair (x0 x1 x2 x3 y0 y1 y2 y3 hi lo : Nat) (raw s : Bytes) :
      hex4 x0 x1 x2 x3 = some hi → hex4 y0 y1 y2 y3 = some lo →
      0xD800 ≤ hi → hi < 0xDC00 → 0xDC00 ≤ lo → lo < 0xE000 → StringLit raw s →
      StringLit (92 :: 117 :: x0 :: x1 :: x2 :: x3 :: 92 :: 117 :: y0 :: y1 :: y2 :: y3 :: raw)
        (EncodeRune (0x10000 + (hi - 0xD800) * 1024 + (lo - 0xDC00)) ++ s)

/-- What a piece of JSON text stands for: a value, the elements of an array, or the
members of an object. -/
inductive Sem where
  | value (x : JSON)
  | elements (xs : List JSON)
  | members (ms : List (Bytes × JSON))

/-- The grammar of JSON text (RFC 8259) with what the text stands for: `Derives t sem d`
says that the bytes `t` are a value, a list of array elements or a list of object
members, stand for `sem`, and nest arrays and objects at most `d` deep. -/
inductive Derives : Bytes → Sem → Nat → Prop where
  | litNull (d : Nat) : Derives [110, 117, 108, 108] (Sem.value JSON.null) d
  | litTrue (d : Nat) : Derives [116, 114, 117, 101] (Sem.value (JSON.bool true)) d
  | litFalse (d : Nat) : Derives [102, 97, 108, 115, 101] (Sem.value (JSON.bool false)) d
  | number (t : Bytes) (d : Nat) : NumberLit t → Derives t (Sem.value (JSON.number t)) d
  | string (raw s : Bytes) (d : Nat) : StringLit raw s →
      Derives (34 :: raw ++ [34]) (Sem.value (JSON.string s)) d
  | emptyArray (ws : Bytes) (d : Nat) : Blank ws →
      Derives (91 :: ws ++ [93]) (Sem.value (JSON.array [])) (d + 1)
  | array (t : Bytes) (xs : List JSON) (d : Nat) : Derives t (Sem.elements xs) d →
      Derives (91 :: t ++ [93]) (Sem.value (JSON.array xs)) (d + 1)
  | emptyObject (ws : Bytes) (d : Nat) : Blank ws →
      Derives (123 :: ws ++ [125]) (Sem.value (JSON.object [])) (d + 1)
  | object (t : Bytes) (ms : List (Bytes × JSON)) (d : Nat) : Derives t (Sem.members ms) d →
      Derives (123 :: t ++ [125]) (Sem.value (JSON.object ms)) (d + 1)
  | element (ws1 t ws2 : Bytes) (x : JSON) (d : Nat) : Blank ws1 → Blank ws2 →
      Derives t (Sem.value x) d → Derives (ws1 ++ t ++ ws2) (Sem.elements [x]) d
  | elements (ws1 t ws2 rest : Bytes) (x : JSON) (xs : List JSON) (d : Nat) :
      Blank ws1 → Blank ws2 → Derives t (Sem.value x) d → Derives rest (Sem.elements xs) d →
      Derives (ws1 ++ t ++ ws2 ++ 44 :: rest) (Sem.elements (x :: xs)) d
  | member (ws1 raw key ws2 ws3 t ws4 : Bytes) (x : JSON) (d : Nat) :
      Blank ws1 → StringLit raw key → Blank ws2 → Blank ws3 → Blank ws4 →
      Derives t (Sem.value x) d →
      Derives (ws1 ++ 34 :: raw ++ 34 :: ws2 ++ 58 :: ws3 ++ t ++ ws4) (Sem.members [(key, x)]) d
  | members (ws1 raw key ws2 ws3 t ws4 rest : Bytes) (x : JSON) (ms : List (Bytes × JSON))
      (d : Nat) :
      Blank ws1 → StringLit raw key → Blank ws2 → Blank ws3 → Blank ws4 →
      Derives t (Sem.value x) d → Derives rest (Sem.members ms) d →
      Derives (ws1 ++ 34 :: raw ++ 34 :: ws2 ++ 58 :: ws3 ++ t ++ ws4 ++ 44 :: rest)
        (Sem.members ((key, x) :: ms)) d

/-- JSON text: `JSONText body x d` says that the body is JSON text in the sense of RFC
8259, a value with whitespace around it, encoded in UTF-8 and with no escape of an
unpaired surrogate, that it stands for `x`, and that its arrays and objects are nested
at most `d` deep. -/
def JSONText (body : Bytes) (x : JSON) (d : Nat) : Prop :=
  ∃ ws1 t ws2, body = ws1 ++ t ++ ws2 ∧ Blank ws1 ∧ Blank ws2 ∧ Derives t (Sem.value x) d

/-- The bytes a JSON value can begin with: a brace, a bracket, a quote, a minus sign,
a digit, and the first letters of `true`, `false` and `null`. -/
def beginsValue (c : Nat) : Prop :=
  c = 123 ∨ c = 91 ∨ c = 34 ∨ c = 45 ∨ (48 ≤ c ∧ c ≤ 57) ∨ c = 116 ∨ c = 102 ∨ c = 110

/-- A body that is not JSON at all: it is empty or blank, or the first byte after its
leading whitespace cannot begin a JSON value. -/
def NotJSON (body : Bytes) : Prop :=
  Blank body ∨ ∃ ws c rest, body = ws ++ c :: rest ∧ Blank ws
    ∧ ¬ (c = 32 ∨ c = 9 ∨ c = 10 ∨ c = 13) ∧ ¬ beginsValue c

/-- The scanner after a value read with the given parse stack. -/
def finished (ps : List Frame) (x : JSON) : scanner :=
  scanner.complete ⟨State.stateEndValue, ps, [], none⟩ x

/-- The steps in which the scanner expects a value. -/
def ready (st : State) : Prop :=
  st = State.stateBeginValue ∨ st = State.stateBeginValueOrEmpty

/-- A parse stack on which a value can be read: its top is not an object key. -/
def valueFrame : List Frame → Prop
  | Frame.parseObjectKey _ _ :: _ => False
  | _ => True

/-- The bytes that can follow a value in JSON text. -/
def delimiter (c : Nat) : Prop :=
  c = 32 ∨ c = 9 ∨ c = 10 ∨ c = 13 ∨ c = 44 ∨ c = 93 ∨ c = 125

/-- Bytes that start with a delimiter. -/
def delimited (follow : Bytes) : Prop := ∃ c rest, follow = c :: rest ∧ delimiter c

/-- What the scanner does on a piece of JSON text: a value is read to its end and
completed, the elements up to the closing bracket make the array, the members up to the
closing brace make the object. -/
def Reads (t : Bytes) (sem : Sem) (d : Nat) : Prop :=
  match sem with
  | Sem.value x =>
    ∀ (st : State) (ps : List Frame) (tk follow : Bytes),
      ready st → valueFrame ps → ps.length + d ≤ maxNestingDepth → delimited follow →
      List.foldl scanner.next ⟨st, ps, tk, none⟩ (t ++ follow)
        = List.foldl scanner.next (finished ps x) follow
  | Sem.elements xs =>
    ∀ (st : State) (ps : List Frame) (tk rest : Bytes) (ys : List JSON),
      ready st → ps.length + 1 + d ≤ maxNestingDepth →
      List.foldl scanner.next ⟨st, Frame.parseArrayValue ys :: ps, tk, none⟩ (t ++ 93 :: rest)
        = List.foldl scanner.next (finished ps (JSON.array (ys ++ xs))) rest
  | Sem.members ms =>
    ∀ (st : State) (ps : List Frame) (tk rest k0 : Bytes) (ms0 : List (Bytes × JSON)),
      (st = State.stateBeginStringOrEmpty ∨ st = State.stateBeginString) →
      ps.length + 1 + d ≤ maxNestingDepth →
      List.foldl scanner.next ⟨st, Frame.parseObjectKey ms0 k0 :: ps, tk, none⟩ (t ++ 125 :: rest)
        = List.foldl scanner.next (finished ps (JSON.object (ms0 ++ ms))) rest

/-! ## path/filepath -/

/-- The elements of a path: the pieces between the separators `/`. -/
def splitSep : Bytes → List Bytes
  | [] => [[]]
  | c :: rest =>
    if c = 47 then [] :: splitSep rest
    else
      match splitSep rest with
      | e :: es => (c :: e) :: es
      | [] => [[c]]

/-- The elements joined with `/`. -/
def joinSep : List Bytes → Bytes
  | [] => []
  | [e] => e
  | e :: es => e ++ 47 :: joinSep es

/-- One element through Clean, `out` being the elements kept so far, last first: an
empty element and `.` are dropped; `..` removes the element before it, is kept in
front of a path that is not rooted, and is dropped at the root. -/
def cleanStep (rooted : Bool) (out : List Bytes) (e : Bytes) : List Bytes :=
  if e = [] ∨ e = [46] then out
  else if e = [46, 46] then
    match out with
    | top :: below => if top = [46, 46] then e :: out else below
    | [] => if rooted then out else [e]
  else e :: out

/-- The shortest path equivalent to `path` by lexical processing (filepath.Clean). -/
def Clean (path : Bytes) : Bytes :=
  match path with
  | [] => [46]
  | c :: _ =>
    let out := ((splitSep path).foldl (cleanStep (c = 47)) []).reverse
    if c = 47 then 47 :: joinSep out
    else if out = [] then [46]
    else joinSep out

/-- The elements from the first non-empty one on, joined with `/` and cleaned
(filepath.Join). -/
def Join (elem : List Bytes) : Bytes :=
  match elem.dropWhile (fun e => e = []) with
  | [] => []
  | es => Clean (joinSep es)

/-! ## The outside of the program -/

/-- The part of an HTTP response the program reads. Its ContentLength only sizes the
progress bar, whose output is not part of the model. -/
structure Response where
  StatusCode : Nat
  Body : Bytes
  deriving DecidableEq, Repr

/-- The errors the program builds with fmt.Errorf; an argument `err` is the text of the
library error that is wrapped. -/
inductive Error where
  /-- Message `获取版本号失败: %v`: the version request could not be completed. -/
  | versionRequest (err : String)
  /-- Message `获取版本号时服务器返回错误状态码: %d`: the status is not 200. -/
  | versionStatus (code : Nat)
  /-- Message `解析版本号响应失败: %v`: the body could not be decoded. -/
  | versionDecode (err : JSONError)
  /-- Message `获取到的版本号为空`: the decoded version is the empty string. -/
  | versionEmpty
  /-- Message `创建请求失败: %v`. -/
  | newRequest (err : String)
  /-- Message `下载失败: %v`: the download request could not be completed. -/
  | download (err : String)
  /-- Message `服务器返回错误状态码: %d`: the status is not 200. -/
  | downloadStatus (code : Nat)
  /-- Message `创建下载目录失败: %v`. -/
  | mkdir (err : String)
  /-- Message `创建文件失败: %v`. -/
  | create (err : String)
  /-- Message `保存文件失败: %v`: the copy of the body to the file stopped early. -/
  | save (err : String)
  deriving DecidableEq, Repr

/-- The lines the program prints. -/
inductive Msg where
  /-- Line `获取版本号失败: %v`. -/
  | versionFailed (err : Error)
  /-- Line `当前版本号: %s`. -/
  | currentVersion (version : Bytes)
  /-- Line `下载尝试 %d 失败: %v`. -/
  | attemptFailed (n : Nat) (err : Error)
  /-- Line `等待 5 秒后重试...`. -/
  | waiting
  /-- Line `达到最大重试次数，下载失败`. -/
  | maxRetriesReached
  /-- Line `正在下载文件...`. -/
  | downloading
  /-- Line `文件下载成功: %s`. -/
  | success (path : Bytes)
  deriving DecidableEq, Repr

/-- What the program does to the outside, in the order in which it happens. -/
inductive Event where
  /-- Call of client.Get or client.Do for the URL: the first GET of the call is sent,
  to this URL. -/
  | request (url : Bytes)
  /-- The client follows a redirect within that call: a further GET is sent, to this
  URL. -/
  | redirect (url : Bytes)
  /-- Function downloadFile is called with these arguments. -/
  | call (url version : Bytes)
  /-- Call of os.MkdirAll on the directory. -/
  | mkdirAll (dir : Bytes)
  /-- Call of os.Create on the path. -/
  | create (path : Bytes)
  /-- Call of time.Sleep for this many seconds. -/
  | sleep (seconds : Nat)
  /-- A line is printed. -/
  | print (m : Msg)
  deriving DecidableEq, Repr

/-- The file system: the directories that exist and the content of each file. -/
structure FS where
  dirs : List Bytes
  files : List (Bytes × Bytes)
  deriving DecidableEq, Repr

/-- The content of the file at a path, none when there is no such file. -/
def FS.read (fs : FS) (path : Bytes) : Option Bytes :=
  (fs.files.find? fun f => f.1 = path).map Prod.snd

/-- The file at the path has the given content afterwards; every other file is kept. -/
def FS.write (fs : FS) (path content : Bytes) : FS :=
  { fs with files := (path, content) :: fs.files.filter fun f => f.1 ≠ path }

/-- A successful os.MkdirAll: the directory exists afterwards. -/
def FS.MkdirAll (fs : FS) (dir : Bytes) : FS :=
  if dir ∈ fs.dirs then fs else { fs with dirs := dir :: fs.dirs }

/-- A successful os.Create: the file exists and is empty afterwards. -/
def FS.Create (fs : FS) (path : Bytes) : FS := fs.write path []

/-- Bytes written at the end of the file at the path (the writes of io.Copy through
the handle os.Create returned). -/
def FS.append (fs : FS) (path data : Bytes) : FS :=
  fs.write path ((fs.read path).getD [] ++ data)

/-- The state of the outside: the file system and what has happened so far. -/
structure World where
  fs : FS
  trace : List Event
  deriving DecidableEq, Repr

/-- Records an event. -/
def World.log (w : World) (e : Event) : World := { w with trace := w.trace ++ [e] }

/-- Records events, in their order. -/
def World.logAll (w : World) (es : List Event) : World := { w with trace := w.trace ++ es }

/-- What the network answers during one call of client.Get or client.Do. The client of
the source sets no CheckRedirect and follows redirects: `redirects` are the targets of
the redirects the servers answer with, one after the other, and `final` is the outcome
of the GET after the last of them, the response or the error of the transport. -/
structure Exchange where
  redirects : List Bytes
  final : Except String Response

/-- The redirects the client follows: with the default policy it sends 10 GETs at
most, so it follows 9 redirects at most. -/
def Exchange.followed (x : Exchange) : List Bytes := x.redirects.take 9

/-- The GETs one call for the URL sends: the first to the URL, one more for each
redirect followed. -/
def Exchange.sent (x : Exchange) (url : Bytes) : List Event :=
  Event.request url :: x.followed.map Event.redirect

/-- What the call returns: the final outcome, and the error of the default policy when
the tenth GET is answered with a redirect as well. -/
def Exchange.result (x : Exchange) : Except String Response :=
  if x.redirects.length < 10 then x.final else Except.error "stopped after 10 redirects"

/-- The exchange in which the server answers the first GET with this status and body. -/
def Exchange.answer (status : Nat) (body : Bytes) : Exchange :=
  ⟨[], Except.ok ⟨status, body⟩⟩

/-- What the outside answers during one call of downloadFile: the error of
http.NewRequest, the exchange of client.Do, the errors of os.MkdirAll and os.Create,
and, when io.Copy fails, the number of bytes of the body that reached the file before
and the error. -/
structure Attempt where
  NewRequest : Option String
  Do : Exchange
  MkdirAll : Option String
  Create : Option String
  Copy : Option (Nat × String)

/-- What the outside answers during a run: the exchange of the version request
`client.Get(baseURL)` and the answers during each call of downloadFile, numbered in
the order of the calls. -/
structure Env where
  Get : Exchange
  attempt : Nat → Attempt

/-! ## The program -/

/-- The constant baseURL. -/
def baseURL : Bytes :=
  utf8 "https://esolutions.dpd.com/partnerloesungen/hazdistributionservice.aspx"

/-- The constant maxRetries. -/
def maxRetries : Nat := 3

/-- The constant http.StatusOK. -/
def StatusOK : Nat := 200

/-- The function getCurrentVersion, `get` being the exchange of `client.Get(baseURL)`:
one call of client.Get for baseURL; an error when the call fails, when the status is
not 200, when the body does not decode and when the decoded version is empty; the
decoded version otherwise. -/
def getCurrentVersion (get : Exchange) (w : World) : Except Error Bytes × World :=
  let w1 := w.logAll (get.sent baseURL)
  match get.result with
  | Except.error err => (Except.error (Error.versionRequest err), w1)
  | Except.ok resp =>
    if resp.StatusCode ≠ StatusOK then
      (Except.error (Error.versionStatus resp.StatusCode), w1)
    else
      let decoded := Decode resp.Body ⟨[]⟩
      match decoded.2 with
      | some err => (Except.error (Error.versionDecode err), w1)
      | none =>
        if decoded.1.Version = [] then (Except.error Error.versionEmpty, w1)
        else (Except.ok decoded.1.Version, w1)

/-- The file name `dpd_distribution_HAZ_%s.zip` of a version. -/
def filename (version : Bytes) : Bytes :=
  utf8 "dpd_distribution_HAZ_" ++ version ++ utf8 ".zip"

/-- The constant downloadDir. -/
def downloadDir : Bytes := utf8 "downloads"

/-- The function downloadFile: the error it returns (none for nil) and the world
afterwards. The request is built and sent; on status 200 the directory is made, the
file is created or emptied, and the body is copied into it from its start. -/
def downloadFile (a : Attempt) (url version : Bytes) (w : World) : Option Error × World :=
  match a.NewRequest with
  | some err => (some (Error.newRequest err), w)
  | none =>
    let w1 := (w.log (Event.print Msg.downloading)).logAll (a.Do.sent url)
    match a.Do.result with
    | Except.error err => (some (Error.download err), w1)
    | Except.ok resp =>
      if resp.StatusCode ≠ StatusOK then (some (Error.downloadStatus resp.StatusCode), w1)
      else
        let w2 := w1.log (Event.mkdirAll downloadDir)
        match a.MkdirAll with
        | some err => (some (Error.mkdir err), w2)
        | none =>
          let w3 := { w2 with fs := w2.fs.MkdirAll downloadDir }
          let filepath := Join [downloadDir, filename version]
          let w4 := w3.log (Event.create filepath)
          match a.Create with
          | some err => (some (Error.create err), w4)
          | none =>
            let w5 := { w4 with fs := w4.fs.Create filepath }
            match a.Copy with
            | some (n, err) =>
              (some (Error.save err), { w5 with fs := w5.fs.append filepath (resp.Body.take n) })
            | none =>
              (none, ({ w5 with fs := w5.fs.append filepath resp.Body }).log
                (Event.print (Msg.success filepath)))

/-- The URL `%s?version=%s` main builds from baseURL and the version. -/
def downloadURL (version : Bytes) : Bytes :=
  baseURL ++ utf8 "?version=" ++ version

/-- The loop `for i := 0; i < maxRetries; i++` of main from index `i` on, and the line
printed after it. A successful call of downloadFile ends main; a failed one is
reported, followed by a sleep of 5 seconds unless it was the last. The first argument
bounds the number of rounds; main gives more than the loop can use. -/
def retryLoop (env : Env) (url version : Bytes) : Nat → Nat → World → World
  | 0, _, w => w
  | fuel + 1, i, w =>
    if i < maxRetries then
      match downloadFile (env.attempt i) url version (w.log (Event.call url version)) with
      | (some err, w1) =>
        let w2 := w1.log (Event.print (Msg.attemptFailed (i + 1) err))
        if i < maxRetries - 1 then
          retryLoop env url version fuel (i + 1)
            ((w2.log (Event.print Msg.waiting)).log (Event.sleep 5))
        else retryLoop env url version fuel (i + 1) w2
      | (none, w1) => w1
    else w.log (Event.print Msg.maxRetriesReached)

/-- The function main, started on a file system with nothing having happened yet. -/
def main (env : Env) (fs : FS) : World :=
  match getCurrentVersion env.Get ⟨fs, []⟩ with
  | (Except.error err, w) => w.log (Event.print (Msg.versionFailed err))
  | (Except.ok version, w) =>
    retryLoop env (downloadURL version) version (maxRetries + 1) 0
      (w.log (Event.print (Msg.currentVersion version)))

/-- The answers of the outside during a call of downloadFile in which the server
answers with the given status and body and nothing else fails. -/
def Attempt.answer (status : Nat) (body : Bytes) : Attempt :=
  ⟨none, Exchange.answer status body, none, none, none⟩

/-- Whether a JSON value is null. -/
def JSON.isNull : JSON → Bool
  | JSON.null => true
  | _ => false

/-- Whether a JSON value is a string. -/
def JSON.isString : JSON → Bool
  | JSON.string _ => true
  | _ => false

/-- Whether a JSON value is an object. -/
def JSON.isObject : JSON → Bool
  | JSON.object _ => true
  | _ => false

/-- The calls of downloadFile and the sleeps of a trace, in their order. -/
def schedule (t : List Event) : List Event :=
  t.filter fun e =>
    match e with
    | Event.call _ _ => true
    | Event.sleep _ => true
    | _ => false

/-- The number of calls of client.Get and client.Do of a trace. -/
def requests (t : List Event) : Nat :=
  (t.filter fun e =>
    match e with
    | Event.request _ => true
    | _ => false).length

/-- The number of HTTP GETs sent in a trace: the first of each call of the client and
the redirects followed. -/
def gets (t : List Event) : Nat :=
  (t.filter fun e =>
    match e with
    | Event.request _ => true
    | Event.redirect _ => true
    | _ => false).length

/-- The number of calls of downloadFile of a trace. -/
def calls (t : List Event) : Nat :=
  (t.filter fun e =>
    match e with
    | Event.call _ _ => true
    | _ => false).length

/-- The number of sleeps of a trace. -/
def sleeps (t : List Event) : Nat :=
  (t.filter fun e =>
    match e with
    | Event.sleep _ => true
    | _ => false).length

/-! ## The version resolver -/

theorem World.log_trace (w : World) (e : Event) : (w.log e).trace = w.trace ++ [e] := rfl

theorem World.logAll_trace (w : World) (es : List Event) :
    (w.logAll es).trace = w.trace ++ es := rfl

theorem Exchange.followed_of_result (x : Exchange) (resp : Response)
    (h : x.result = Except.ok resp) : x.followed = x.redirects ∧ x.final = Except.ok resp := by
  unfold Exchange.result at h
  by_cases hl : x.redirects.length < 10
  · rw [if_pos hl] at h
    refine ⟨?_, h⟩
    unfold Exchange.followed
    exact List.take_of_length_le (by omega)
  · rw [if_neg hl] at h
    cases h

theorem Exchange.mem_sent (x : Exchange) (url : Bytes) (e : Event) (he : e ∈ x.sent url) :
    e = Event.request url ∨ ∃ target, e = Event.redirect target := by
  simp only [Exchange.sent, List.mem_cons, List.mem_map] at he
  rcases he with he | ⟨u, _, he⟩
  · left; exact he
  · right; exact ⟨u, he.symm⟩

theorem requests_sent (x : Exchange) (url : Bytes) : requests (x.sent url) = 1 := by
  simp [requests, Exchange.sent, List.filter_map, Function.comp_def]

theorem gets_sent (x : Exchange) (url : Bytes) : gets (x.sent url) = 1 + x.followed.length := by
  simp [gets, Exchange.sent, List.filter_map, Function.comp_def]
  omega

theorem requests_append (t u : List Event) : requests (t ++ u) = requests t + requests u := by
  simp [requests]

theorem gets_append (t u : List Event) : gets (t ++ u) = gets t + gets u := by
  simp [gets]

theorem getCurrentVersion_world (get : Exchange) (w : World) :
    (getCurrentVersion get w).2 = w.logAll (get.sent baseURL) := by
  unfold getCurrentVersion
  cases get.result with
  | error err => rfl
  | ok resp =>
    simp only
    split
    · rfl
    · split
      · rfl
      · split <;> rfl

theorem getCurrentVersion_of_decode (get : Exchange) (resp : Response) (w : World)
    (hresp : get.result = Except.ok resp) (hstatus : resp.StatusCode = 200) :
    (getCurrentVersion get w).1
      = match (Decode resp.Body ⟨[]⟩).2 with
        | some err => Except.error (Error.versionDecode err)
        | none =>
          if (Decode resp.Body ⟨[]⟩).1.Version = [] then Except.error Error.versionEmpty
          else Except.ok (Decode resp.Body ⟨[]⟩).1.Version := by
  simp only [getCurrentVersion, hresp, StatusOK, hstatus, ne_eq, not_true_eq_false, if_false]
  cases (Decode resp.Body ⟨[]⟩).2 with
  | some err => rfl
  | none =>
    simp only
    split <;> rfl

/-- C3, as the code has it: a response delivered to the version request whose status
is not 200 makes getCurrentVersion fail with the status error carrying that status,
whatever the body is; client.Get has been called once and the file system is as
before. The GETs sent are the one to baseURL and one more for each redirect the client
followed on the way to that response: exactly one when it followed none. -/
theorem getCurrentVersion_status_error (get : Exchange) (resp : Response) (w : World)
    (hresp : get.result = Except.ok resp) (hstatus : resp.StatusCode ≠ 200) :
    (getCurrentVersion get w).1 = Except.error (Error.versionStatus resp.StatusCode)
      ∧ (getCurrentVersion get w).2.trace
          = w.trace ++ Event.request baseURL :: get.redirects.map Event.redirect
      ∧ requests (getCurrentVersion get w).2.trace = requests w.trace + 1
      ∧ gets (getCurrentVersion get w).2.trace = gets w.trace + 1 + get.redirects.length
      ∧ (get.redirects = [] → gets (getCurrentVersion get w).2.trace = gets w.trace + 1)
      ∧ (getCurrentVersion get w).2.fs = w.fs := by
  have h : resp.StatusCode ≠ StatusOK := hstatus
  have hf := (Exchange.followed_of_result get resp hresp).1
  have hg : gets (getCurrentVersion get w).2.trace = gets w.trace + 1 + get.redirects.length := by
    rw [getCurrentVersion_world, World.logAll_trace, gets_append, gets_sent, hf]
    omega
  refine ⟨?_, ?_, ?_, hg, ?_, ?_⟩
  · simp [getCurrentVersion, hresp, h]
  · rw [getCurrentVersion_world, World.logAll_trace, Exchange.sent, hf]
  · rw [getCurrentVersion_world, World.logAll_trace, requests_append, requests_sent]
  · intro hnil
    rw [hg, hnil]
    rfl
  · rw [getCurrentVersion_world]; rfl

theorem getCurrentVersion_status_error_witness :
    (getCurrentVersion (Exchange.answer 500 (utf8 "\x7b\"version\":\"5.2.1\"\x7d"))
        ⟨⟨[], []⟩, []⟩).1 = Except.error (Error.versionStatus 500)
      ∧ (getCurrentVersion (Exchange.answer 500 (utf8 "\x7b\"version\":\"5.2.1\"\x7d"))
        ⟨⟨[], []⟩, []⟩).2.trace = [] ++ Event.request baseURL :: [].map Event.redirect :=
  ⟨(getCurrentVersion_status_error (Exchange.answer 500 (utf8 "\x7b\"version\":\"5.2.1\"\x7d"))
      ⟨500, utf8 "\x7b\"version\":\"5.2.1\"\x7d"⟩ ⟨⟨[], []⟩, []⟩ rfl (by decide)).1,
   (getCurrentVersion_status_error (Exchange.answer 500 (utf8 "\x7b\"version\":\"5.2.1\"\x7d"))
      ⟨500, utf8 "\x7b\"version\":\"5.2.1\"\x7d"⟩ ⟨⟨[], []⟩, []⟩ rfl (by decide)).2.1⟩

/-- C3 as stated fails: the server answers the GET of baseURL with a redirect and the
GET of its target with status 500; getCurrentVersion fails with the status error, and
two GETs have been sent, the second to another URL, by its one call of client.Get. -/
theorem getCurrentVersion_sends_second_request :
    (getCurrentVersion ⟨[utf8 "https://example.org/haz"], Except.ok ⟨500, []⟩⟩
        ⟨⟨[], []⟩, []⟩).1 = Except.error (Error.versionStatus 500)
      ∧ (getCurrentVersion ⟨[utf8 "https://example.org/haz"], Except.ok ⟨500, []⟩⟩
        ⟨⟨[], []⟩, []⟩).2.trace
          = [Event.request baseURL, Event.redirect (utf8 "https://example.org/haz")]
      ∧ gets (getCurrentVersion ⟨[utf8 "https://example.org/haz"], Except.ok ⟨500, []⟩⟩
        ⟨⟨[], []⟩, []⟩).2.trace = 2 :=
  ⟨rfl, rfl, rfl⟩

/-- C4: a response with status 200 whose body decodes without error to the empty
version makes getCurrentVersion fail with the empty-version error; and no outcome of
the request makes getCurrentVersion return the empty string as its version. -/
theorem getCurrentVersion_empty_version (get : Exchange) (resp : Response) (w : World)
    (hresp : get.result = Except.ok resp)
    (hstatus : resp.StatusCode = 200)
    (hdecode : (Decode resp.Body ⟨[]⟩).2 = none)
    (hempty : (Decode resp.Body ⟨[]⟩).1.Version = []) :
    (getCurrentVersion get w).1 = Except.error Error.versionEmpty
      ∧ ∀ (get0 : Exchange) (w0 : World), (getCurrentVersion get0 w0).1 ≠ Except.ok [] := by
  constructor
  · simp [getCurrentVersion, hresp, StatusOK, hstatus, hdecode, hempty]
  · intro get0 w0
    unfold getCurrentVersion
    cases get0.result with
    | error err => simp
    | ok r =>
      simp only
      split
      · simp
      · split
        · simp
        · split
          · simp
          · rename_i hne
            intro h
            injection h with h
            exact hne h

theorem getCurrentVersion_empty_version_witness :
    (getCurrentVersion (Exchange.answer 200 (utf8 "\x7b\"version\":\"\"\x7d")) ⟨⟨[], []⟩, []⟩).1
      = Except.error Error.versionEmpty :=
  (getCurrentVersion_empty_version (Exchange.answer 200 (utf8 "\x7b\"version\":\"\"\x7d"))
    ⟨200, utf8 "\x7b\"version\":\"\"\x7d"⟩ ⟨⟨[], []⟩, []⟩
    rfl (by decide) (by decide) (by decide)).1

/-! ## One download -/

theorem FS.read_write (fs : FS) (path content : Bytes) :
    (fs.write path content).read path = some content := by
  simp [FS.read, FS.write]

theorem FS.read_append_Create (fs : FS) (path data : Bytes) :
    ((fs.Create path).append path data).read path = some data := by
  simp [FS.append, FS.Create, FS.read_write]

theorem downloadFile_success (a : Attempt) (url version : Bytes) (w : World)
    (h : (downloadFile a url version w).1 = none) :
    ∃ resp, a.NewRequest = none ∧ a.Do.result = Except.ok resp ∧ resp.StatusCode = 200
      ∧ a.MkdirAll = none ∧ a.Create = none ∧ a.Copy = none := by
  obtain ⟨nr, d, mk, cr, cp⟩ := a
  cases nr with
  | some e => simp [downloadFile] at h
  | none =>
    cases hd : d.result with
    | error e => simp [downloadFile, hd] at h
    | ok resp =>
      by_cases hs : resp.StatusCode = 200
      · cases mk with
        | some e => simp [downloadFile, hd, StatusOK, hs] at h
        | none =>
          cases cr with
          | some e => simp [downloadFile, hd, StatusOK, hs] at h
          | none =>
            cases cp with
            | some e => simp [downloadFile, hd, StatusOK, hs] at h
            | none => exact ⟨resp, rfl, rfl, hs, rfl, rfl, rfl⟩
      · simp [downloadFile, hd, StatusOK, hs] at h

/-- C8: when downloadFile returns without error, the response had status 200 and the
file at the destination path holds exactly the body of the response, whatever the file
system held before: the file has the length of the body and nothing of an earlier
content is left. -/
theorem downloadFile_writes_body (a : Attempt) (url version : Bytes) (w : World)
    (hok : (downloadFile a url version w).1 = none) :
    ∃ resp, a.Do.result = Except.ok resp ∧ resp.StatusCode = 200
      ∧ (downloadFile a url version w).2.fs.read (Join [downloadDir, filename version])
          = some resp.Body
      ∧ ((downloadFile a url version w).2.fs.read (Join [downloadDir, filename version])).map
          List.length = some resp.Body.length := by
  obtain ⟨resp, hnr, hdo, hs, hmk, hcr, hcp⟩ := downloadFile_success a url version w hok
  have hread : (downloadFile a url version w).2.fs.read (Join [downloadDir, filename version])
      = some resp.Body := by
    simp [downloadFile, hnr, hdo, hs, hmk, hcr, hcp, StatusOK, World.log, World.logAll,
      FS.read_append_Create]
  exact ⟨resp, hdo, hs, hread, by rw [hread]; rfl⟩

theorem downloadFile_writes_body_witness :
    ∃ resp, (Attempt.answer 200 [80, 75, 3, 4]).Do.result = Except.ok resp
      ∧ resp.StatusCode = 200
      ∧ (downloadFile (Attempt.answer 200 [80, 75, 3, 4])
            (downloadURL (utf8 "5.2.1")) (utf8 "5.2.1")
            ⟨⟨[], [(utf8 "downloads/dpd_distribution_HAZ_5.2.1.zip", [1, 2, 3, 4, 5, 6])]⟩,
              []⟩).2.fs.read (Join [downloadDir, filename (utf8 "5.2.1")]) = some resp.Body
      ∧ ((downloadFile (Attempt.answer 200 [80, 75, 3, 4])
            (downloadURL (utf8 "5.2.1")) (utf8 "5.2.1")
            ⟨⟨[], [(utf8 "downloads/dpd_distribution_HAZ_5.2.1.zip", [1, 2, 3, 4, 5, 6])]⟩,
              []⟩).2.fs.read (Join [downloadDir, filename (utf8 "5.2.1")])).map List.length
          = some resp.Body.length :=
  downloadFile_writes_body (Attempt.answer 200 [80, 75, 3, 4])
    (downloadURL (utf8 "5.2.1")) (utf8 "5.2.1")
    ⟨⟨[], [(utf8 "downloads/dpd_distribution_HAZ_5.2.1.zip", [1, 2, 3, 4, 5, 6])]⟩, []⟩
    (by decide)

theorem downloadFile_newRequest_error (a : Attempt) (url version : Bytes) (w : World)
    (err : String) (hnr : a.NewRequest = some err) :
    downloadFile a url version w = (some (Error.newRequest err), w) := by
  obtain ⟨nr, d, mk, cr, cp⟩ := a
  simp only at hnr
  subst hnr
  rfl

theorem downloadFile_do_error (a : Attempt) (url version : Bytes) (w : World)
    (err : String) (hnr : a.NewRequest = none) (hdo : a.Do.result = Except.error err) :
    downloadFile a url version w
      = (some (Error.download err),
          (w.log (Event.print Msg.downloading)).logAll (a.Do.sent url)) := by
  obtain ⟨nr, d, mk, cr, cp⟩ := a
  simp only at hnr hdo
  subst hnr
  simp only [downloadFile, hdo]

theorem downloadFile_bad_status (a : Attempt) (url version : Bytes) (w : World)
    (resp : Response) (hnr : a.NewRequest = none) (hdo : a.Do.result = Except.ok resp)
    (hs : resp.StatusCode ≠ 200) :
    downloadFile a url version w
      = (some (Error.downloadStatus resp.StatusCode),
          (w.log (Event.print Msg.downloading)).logAll (a.Do.sent url)) := by
  obtain ⟨nr, d, mk, cr, cp⟩ := a
  simp only at hnr hdo
  subst hnr
  have hs2 : resp.StatusCode ≠ StatusOK := hs
  simp only [downloadFile, hdo]
  rw [if_pos hs2]

/-- C10: when the download request fails in transport or the response has a status
other than 200, downloadFile returns an error and leaves the file system as it was:
no directory is made, no file is created or emptied, every file keeps its content,
and neither os.MkdirAll nor os.Create is called. -/
theorem downloadFile_failure_keeps_fs (a : Attempt) (url version : Bytes) (w : World)
    (hfail : (∃ err, a.Do.result = Except.error err)
      ∨ ∃ resp, a.Do.result = Except.ok resp ∧ resp.StatusCode ≠ 200) :
    (downloadFile a url version w).1 ≠ none
      ∧ (downloadFile a url version w).2.fs = w.fs
      ∧ (∀ path, (downloadFile a url version w).2.fs.read path = w.fs.read path)
      ∧ (∀ e ∈ (downloadFile a url version w).2.trace,
          e ∈ w.trace ∨ e = Event.print Msg.downloading ∨ e = Event.request url
            ∨ e ∈ a.Do.followed.map Event.redirect) := by
  have hsent : ∀ e ∈ ((w.log (Event.print Msg.downloading)).logAll (a.Do.sent url)).trace,
      e ∈ w.trace ∨ e = Event.print Msg.downloading ∨ e = Event.request url
        ∨ e ∈ a.Do.followed.map Event.redirect := by
    intro e he
    rw [World.logAll_trace, World.log_trace] at he
    rcases List.mem_append.mp he with h1 | h2
    · rcases List.mem_append.mp h1 with h | h
      · left; exact h
      · right; left; exact List.mem_singleton.mp h
    · right; right; exact List.mem_cons.mp h2
  have key : (downloadFile a url version w).1 ≠ none
      ∧ (downloadFile a url version w).2.fs = w.fs
      ∧ (∀ e ∈ (downloadFile a url version w).2.trace,
          e ∈ w.trace ∨ e = Event.print Msg.downloading ∨ e = Event.request url
            ∨ e ∈ a.Do.followed.map Event.redirect) := by
    cases hnr : a.NewRequest with
    | some e =>
      rw [downloadFile_newRequest_error a url version w e hnr]
      exact ⟨by simp, rfl, fun e he => Or.inl he⟩
    | none =>
      rcases hfail with ⟨err, h⟩ | ⟨resp, h, hs⟩
      · rw [downloadFile_do_error a url version w err hnr h]
        exact ⟨by simp, rfl, hsent⟩
      · rw [downloadFile_bad_status a url version w resp hnr h hs]
        exact ⟨by simp, rfl, hsent⟩
  exact ⟨key.1, key.2.1, fun path => by rw [key.2.1], key.2.2⟩

theorem downloadFile_failure_keeps_fs_witness :
    (downloadFile (Attempt.answer 500 [1, 2])
        (downloadURL (utf8 "5.2.1")) (utf8 "5.2.1")
        ⟨⟨[], [(utf8 "downloads/dpd_distribution_HAZ_5.2.1.zip", [7, 7, 7])]⟩, []⟩).2.fs
      = ⟨[], [(utf8 "downloads/dpd_distribution_HAZ_5.2.1.zip", [7, 7, 7])]⟩ :=
  (downloadFile_failure_keeps_fs (Attempt.answer 500 [1, 2])
    (downloadURL (utf8 "5.2.1")) (utf8 "5.2.1")
    ⟨⟨[], [(utf8 "downloads/dpd_distribution_HAZ_5.2.1.zip", [7, 7, 7])]⟩, []⟩
    (Or.inr ⟨⟨500, [1, 2]⟩, rfl, by decide⟩)).2.1

theorem schedule_sent (x : Exchange) (url : Bytes) : schedule (x.sent url) = [] := by
  simp [schedule, Exchange.sent, List.filter_map, Function.comp_def]

theorem schedule_append (t u : List Event) : schedule (t ++ u) = schedule t ++ schedule u := by
  simp [schedule]

theorem schedule_start (x : Exchange) (v : Bytes) :
    schedule (x.sent baseURL ++ [Event.print (Msg.currentVersion v)]) = [] := by
  rw [schedule_append, schedule_sent]
  rfl

theorem final_message_not_in_start (x : Exchange) (v : Bytes) :
    Event.print Msg.maxRetriesReached ∉ x.sent baseURL ++ [Event.print (Msg.currentVersion v)] := by
  intro h
  rcases List.mem_append.mp h with h | h
  · rcases Exchange.mem_sent x baseURL _ h with h | ⟨u, h⟩ <;> cases h
  · simp at h

theorem main_of_error (env : Env) (fs : FS) (err : Error)
    (herr : (getCurrentVersion env.Get ⟨fs, []⟩).1 = Except.error err) :
    main env fs = ⟨fs, env.Get.sent baseURL ++ [Event.print (Msg.versionFailed err)]⟩ := by
  have hw := getCurrentVersion_world env.Get ⟨fs, []⟩
  unfold main
  generalize getCurrentVersion env.Get ⟨fs, []⟩ = r at herr hw
  obtain ⟨r1, r2⟩ := r
  simp only at herr hw
  subst herr hw
  rfl

/-- C7: when getCurrentVersion returns an error, main prints it and ends: its trace
is the one call of client.Get for the version, with the GETs of that call, and the
printed line; downloadFile is not called, nothing sleeps, no second version request is
made, and the file system is as it was at the start. -/
theorem main_stops_on_version_error (env : Env) (fs : FS) (err : Error)
    (herr : (getCurrentVersion env.Get ⟨fs, []⟩).1 = Except.error err) :
    (main env fs).trace
        = Event.request baseURL :: env.Get.followed.map Event.redirect
            ++ [Event.print (Msg.versionFailed err)]
      ∧ schedule (main env fs).trace = []
      ∧ requests (main env fs).trace = 1
      ∧ (main env fs).fs = fs := by
  rw [main_of_error env fs err herr]
  refine ⟨rfl, ?_, ?_, rfl⟩
  · simp only [schedule_append, schedule_sent]
    simp [schedule]
  · simp only [requests_append, requests_sent]
    simp [requests]

theorem main_stops_on_version_error_witness :
    (main ⟨Exchange.answer 200 (utf8 "<html>"), fun _ => Attempt.answer 200 [80, 75]⟩
        ⟨[], []⟩).trace
      = Event.request baseURL :: (Exchange.answer 200 (utf8 "<html>")).followed.map Event.redirect
          ++ [Event.print (Msg.versionFailed (Error.versionDecode JSONError.SyntaxError))] :=
  (main_stops_on_version_error
    ⟨Exchange.answer 200 (utf8 "<html>"), fun _ => Attempt.answer 200 [80, 75]⟩
    ⟨[], []⟩ (Error.versionDecode JSONError.SyntaxError) rfl).1

/-! ## The retry loop -/

theorem downloadFile_trace (a : Attempt) (url version : Bytes) (w : World) :
    ∃ extra, (downloadFile a url version w).2.trace = w.trace ++ extra
      ∧ ∀ e ∈ extra, e = Event.print Msg.downloading ∨ e = Event.request url
          ∨ (∃ target, e = Event.redirect target)
          ∨ e = Event.mkdirAll downloadDir ∨ e = Event.create (Join [downloadDir, filename version])
          ∨ e = Event.print (Msg.success (Join [downloadDir, filename version])) := by
  have hsent : ∀ e ∈ a.Do.sent url, e = Event.request url ∨ ∃ target, e = Event.redirect target :=
    fun e he => Exchange.mem_sent a.Do url e he
  have hmem : ∀ (more : List Event),
      (∀ e ∈ more, e = Event.mkdirAll downloadDir
        ∨ e = Event.create (Join [downloadDir, filename version])
        ∨ e = Event.print (Msg.success (Join [downloadDir, filename version]))) →
      ∀ e ∈ Event.print Msg.downloading :: (a.Do.sent url ++ more),
        e = Event.print Msg.downloading ∨ e = Event.request url
          ∨ (∃ target, e = Event.redirect target)
          ∨ e = Event.mkdirAll downloadDir ∨ e = Event.create (Join [downloadDir, filename version])
          ∨ e = Event.print (Msg.success (Join [downloadDir, filename version])) := by
    intro more hmore e he
    simp only [List.mem_cons, List.mem_append] at he
    rcases he with he | he | he
    · left; exact he
    · rcases hsent e he with h | h
      · right; left; exact h
      · right; right; left; exact h
    · rcases hmore e he with h | h | h
      · right; right; right; left; exact h
      · right; right; right; right; left; exact h
      · right; right; right; right; right; exact h
  cases hnr : a.NewRequest with
  | some err => exact ⟨[], by simp [downloadFile, hnr], by simp⟩
  | none =>
    cases hd : a.Do.result with
    | error err =>
      exact ⟨Event.print Msg.downloading :: (a.Do.sent url ++ []),
        by simp [downloadFile, hnr, hd, World.log, World.logAll], hmem [] (by simp)⟩
    | ok resp =>
      by_cases hs : resp.StatusCode = StatusOK
      · cases hmk : a.MkdirAll with
        | some err =>
          exact ⟨Event.print Msg.downloading :: (a.Do.sent url ++ [Event.mkdirAll downloadDir]),
            by simp [downloadFile, hnr, hd, hmk, World.log, World.logAll, hs],
            hmem _ (by simp)⟩
        | none =>
          cases hcr : a.Create with
          | some err =>
            exact ⟨Event.print Msg.downloading :: (a.Do.sent url ++ [Event.mkdirAll downloadDir,
                Event.create (Join [downloadDir, filename version])]),
              by simp [downloadFile, hnr, hd, hmk, hcr, World.log, World.logAll, hs],
              hmem _ (by simp)⟩
          | none =>
            cases hcp : a.Copy with
            | some err =>
              exact ⟨Event.print Msg.downloading :: (a.Do.sent url ++ [Event.mkdirAll downloadDir,
                  Event.create (Join [downloadDir, filename version])]),
                by simp [downloadFile, hnr, hd, hmk, hcr, hcp, World.log, World.logAll, hs],
                hmem _ (by simp)⟩
            | none =>
              exact ⟨Event.print Msg.downloading :: (a.Do.sent url ++ [Event.mkdirAll downloadDir,
                  Event.create (Join [downloadDir, filename version]),
                  Event.print (Msg.success (Join [downloadDir, filename version]))]),
                by simp [downloadFile, hnr, hd, hmk, hcr, hcp, World.log, World.logAll, hs],
                hmem _ (by simp)⟩
      · exact ⟨Event.print Msg.downloading :: (a.Do.sent url ++ []),
          by simp [downloadFile, hnr, hd, World.log, World.logAll, hs], hmem [] (by simp)⟩

theorem calls_append (t u : List Event) : calls (t ++ u) = calls t + calls u := by
  simp [calls]

theorem calls_sent (x : Exchange) (url : Bytes) : calls (x.sent url) = 0 := by
  simp [calls, Exchange.sent, List.filter_map, Function.comp_def]

theorem sleeps_append (t u : List Event) : sleeps (t ++ u) = sleeps t + sleeps u := by
  simp [sleeps]

theorem downloadFile_schedule (a : Attempt) (url version : Bytes) (w : World) :
    schedule (downloadFile a url version w).2.trace = schedule w.trace := by
  obtain ⟨extra, h, hex⟩ := downloadFile_trace a url version w
  rw [h, schedule_append]
  have : schedule extra = [] := by
    unfold schedule
    rw [List.filter_eq_nil_iff]
    intro e he
    rcases hex e he with h | h | ⟨u, h⟩ | h | h | h <;> subst h <;> simp
  rw [this, List.append_nil]

theorem downloadFile_calls (a : Attempt) (url version : Bytes) (w : World) :
    calls (downloadFile a url version w).2.trace = calls w.trace := by
  obtain ⟨extra, h, hex⟩ := downloadFile_trace a url version w
  rw [h, calls_append]
  have : calls extra = 0 := by
    unfold calls
    rw [List.length_eq_zero, List.filter_eq_nil_iff]
    intro e he
    rcases hex e he with h | h | ⟨u, h⟩ | h | h | h <;> subst h <;> simp
  rw [this, Nat.add_zero]

theorem downloadFile_no_final_message (a : Attempt) (url version : Bytes) (w : World)
    (h : Event.print Msg.maxRetriesReached ∉ w.trace) :
    Event.print Msg.maxRetriesReached ∉ (downloadFile a url version w).2.trace := by
  obtain ⟨extra, ht, hex⟩ := downloadFile_trace a url version w
  rw [ht, List.mem_append]
  rintro (hm | hm)
  · exact h hm
  · rcases hex _ hm with h | h | ⟨u, h⟩ | h | h | h <;> simp at h

theorem retryLoop_success (env : Env) (url version : Bytes) (fuel i : Nat) (w : World)
    (hi : i < maxRetries)
    (h : (downloadFile (env.attempt i) url version (w.log (Event.call url version))).1 = none) :
    retryLoop env url version (fuel + 1) i w
      = (downloadFile (env.attempt i) url version (w.log (Event.call url version))).2 := by
  rw [retryLoop, if_pos hi]
  generalize downloadFile (env.attempt i) url version (w.log (Event.call url version)) = r at h
  obtain ⟨r1, r2⟩ := r
  simp only at h
  subst h
  rfl

theorem retryLoop_failure (env : Env) (url version : Bytes) (fuel i : Nat) (w : World)
    (err : Error) (hi : i < maxRetries)
    (h : (downloadFile (env.attempt i) url version (w.log (Event.call url version))).1
      = some err) :
    retryLoop env url version (fuel + 1) i w
      = if i < maxRetries - 1 then
          retryLoop env url version fuel (i + 1)
            (((((downloadFile (env.attempt i) url version (w.log (Event.call url version))).2).log
              (Event.print (Msg.attemptFailed (i + 1) err))).log
              (Event.print Msg.waiting)).log (Event.sleep 5))
        else
          retryLoop env url version fuel (i + 1)
            (((downloadFile (env.attempt i) url version (w.log (Event.call url version))).2).log
              (Event.print (Msg.attemptFailed (i + 1) err))) := by
  rw [retryLoop, if_pos hi]
  generalize downloadFile (env.attempt i) url version (w.log (Event.call url version)) = r at h
  obtain ⟨r1, r2⟩ := r
  simp only at h
  subst h
  rfl

theorem retryLoop_exhausted (env : Env) (url version : Bytes) (fuel i : Nat) (w : World)
    (hi : ¬ i < maxRetries) :
    retryLoop env url version (fuel + 1) i w = w.log (Event.print Msg.maxRetriesReached) := by
  rw [retryLoop, if_neg hi]

theorem main_of_version (env : Env) (fs : FS) (v : Bytes)
    (hv : (getCurrentVersion env.Get ⟨fs, []⟩).1 = Except.ok v) :
    main env fs = retryLoop env (downloadURL v) v (maxRetries + 1) 0
      ⟨fs, env.Get.sent baseURL ++ [Event.print (Msg.currentVersion v)]⟩ := by
  have hw := getCurrentVersion_world env.Get ⟨fs, []⟩
  unfold main
  generalize getCurrentVersion env.Get ⟨fs, []⟩ = r at hv hw
  obtain ⟨r1, r2⟩ := r
  simp only at hv hw
  subst hv hw
  rfl

theorem retryLoop_fuel (env : Env) (url version : Bytes) (fuel : Nat) :
    ∀ (i : Nat) (w : World), maxRetries - i < fuel →
      retryLoop env url version (fuel + 1) i w = retryLoop env url version fuel i w := by
  induction fuel with
  | zero => intro i w h; exact absurd h (Nat.not_lt_zero _)
  | succ fuel ih =>
    intro i w h
    by_cases hi : i < maxRetries
    · have hnext : maxRetries - (i + 1) < fuel := by omega
      cases hr : (downloadFile (env.attempt i) url version (w.log (Event.call url version))).1 with
      | none =>
        rw [retryLoop_success env url version (fuel + 1) i w hi hr,
          retryLoop_success env url version fuel i w hi hr]
      | some err =>
        rw [retryLoop_failure env url version (fuel + 1) i w err hi hr,
          retryLoop_failure env url version fuel i w err hi hr, ih _ _ hnext, ih _ _ hnext]
    · rw [retryLoop_exhausted env url version (fuel + 1) i w hi,
        retryLoop_exhausted env url version fuel i w hi]

theorem calls_schedule (t : List Event) : calls (schedule t) = calls t := by
  unfold calls schedule
  rw [List.filter_filter]
  congr 2
  funext e
  cases e <;> rfl

theorem sleeps_schedule (t : List Event) : sleeps (schedule t) = sleeps t := by
  unfold sleeps schedule
  rw [List.filter_filter]
  congr 2
  funext e
  cases e <;> rfl

theorem schedule_log_call (w : World) (url version : Bytes) :
    schedule (w.log (Event.call url version)).trace
      = schedule w.trace ++ [Event.call url version] := by
  simp [World.log, schedule]

theorem retryLoop_step_success (env : Env) (url version : Bytes) (fuel i : Nat) (w : World)
    (hi : i < maxRetries)
    (h : ∀ w0, (downloadFile (env.attempt i) url version w0).1 = none) :
    schedule (retryLoop env url version (fuel + 1) i w).trace
        = schedule w.trace ++ [Event.call url version]
      ∧ (Event.print Msg.maxRetriesReached ∉ w.trace →
          Event.print Msg.maxRetriesReached ∉ (retryLoop env url version (fuel + 1) i w).trace) := by
  rw [retryLoop_success env url version fuel i w hi (h _)]
  refine ⟨by rw [downloadFile_schedule, schedule_log_call], fun hn => ?_⟩
  apply downloadFile_no_final_message
  simpa [World.log] using hn

theorem retryLoop_step_failure (env : Env) (url version : Bytes) (fuel i : Nat) (w : World)
    (hi : i < maxRetries - 1)
    (h : ∀ w0, (downloadFile (env.attempt i) url version w0).1 ≠ none) :
    ∃ w1, retryLoop env url version (fuel + 1) i w = retryLoop env url version fuel (i + 1) w1
      ∧ schedule w1.trace = schedule w.trace ++ [Event.call url version, Event.sleep 5] := by
  obtain ⟨err, herr⟩ := Option.ne_none_iff_exists'.mp (h (w.log (Event.call url version)))
  have hi3 : i < maxRetries := Nat.lt_of_lt_of_le hi (Nat.sub_le _ _)
  have heq := retryLoop_failure env url version fuel i w err hi3 herr
  rw [if_pos hi] at heq
  refine ⟨_, heq, ?_⟩
  simp only [World.log_trace, schedule_append, downloadFile_schedule]
  simp [schedule]

theorem retryLoop_step_last_failure (env : Env) (url version : Bytes) (fuel i : Nat)
    (w : World) (hi : i < maxRetries) (hlast : ¬ i < maxRetries - 1)
    (h : ∀ w0, (downloadFile (env.attempt i) url version w0).1 ≠ none) :
    ∃ w1, retryLoop env url version (fuel + 1) i w = retryLoop env url version fuel (i + 1) w1
      ∧ schedule w1.trace = schedule w.trace ++ [Event.call url version] := by
  obtain ⟨err, herr⟩ := Option.ne_none_iff_exists'.mp (h (w.log (Event.call url version)))
  have heq := retryLoop_failure env url version fuel i w err hi herr
  rw [if_neg hlast] at heq
  refine ⟨_, heq, ?_⟩
  simp only [World.log_trace, schedule_append, downloadFile_schedule]
  simp [schedule]

theorem retryLoop_calls_le (env : Env) (url version : Bytes) (fuel : Nat) :
    ∀ (i : Nat) (w : World),
      calls (retryLoop env url version fuel i w).trace ≤ calls w.trace + (maxRetries - i) := by
  induction fuel with
  | zero => intro i w; simp [retryLoop]
  | succ fuel ih =>
    intro i w
    have hcall : calls (w.log (Event.call url version)).trace = calls w.trace + 1 := by
      simp [World.log, calls]
    by_cases hi : i < maxRetries
    · cases hr : (downloadFile (env.attempt i) url version (w.log (Event.call url version))).1 with
      | none =>
        rw [retryLoop_success env url version fuel i w hi hr, downloadFile_calls, hcall]
        omega
      | some err =>
        rw [retryLoop_failure env url version fuel i w err hi hr]
        split
        · refine le_trans (ih _ _) ?_
          simp only [World.log_trace, calls_append, downloadFile_calls]
          simp only [calls, List.filter_cons, List.filter_nil, List.length_nil]
          simp only [maxRetries] at *
          simp
          omega
        · refine le_trans (ih _ _) ?_
          simp only [World.log_trace, calls_append, downloadFile_calls]
          simp only [calls, List.filter_cons, List.filter_nil, List.length_nil]
          simp only [maxRetries] at *
          simp
          omega
    · rw [retryLoop_exhausted env url version fuel i w hi]
      simp [World.log, calls]

theorem main_calls_le (env : Env) (fs : FS) : calls (main env fs).trace ≤ maxRetries := by
  cases hv : (getCurrentVersion env.Get ⟨fs, []⟩).1 with
  | error err =>
    rw [main_of_error env fs err hv]
    simp only [calls_append, calls_sent]
    simp [calls]
  | ok v =>
    rw [main_of_version env fs v hv]
    refine le_trans (retryLoop_calls_le _ _ _ _ _ _) ?_
    simp only [calls_append, calls_sent]
    simp [calls]

theorem main_schedule_first (env : Env) (fs : FS) (v : Bytes)
    (hv : (getCurrentVersion env.Get ⟨fs, []⟩).1 = Except.ok v)
    (h0 : ∀ w, (downloadFile (env.attempt 0) (downloadURL v) v w).1 = none) :
    schedule (main env fs).trace = [Event.call (downloadURL v) v]
      ∧ Event.print Msg.maxRetriesReached ∉ (main env fs).trace := by
  rw [main_of_version env fs v hv]
  obtain ⟨h1, h2⟩ := retryLoop_step_success env (downloadURL v) v maxRetries 0
    ⟨fs, env.Get.sent baseURL ++ [Event.print (Msg.currentVersion v)]⟩ (by decide) h0
  exact ⟨by rw [h1]; simp only [schedule_start]; rfl, h2 (final_message_not_in_start _ _)⟩

theorem main_schedule_second (env : Env) (fs : FS) (v : Bytes)
    (hv : (getCurrentVersion env.Get ⟨fs, []⟩).1 = Except.ok v)
    (h0 : ∀ w, (downloadFile (env.attempt 0) (downloadURL v) v w).1 ≠ none)
    (h1 : ∀ w, (downloadFile (env.attempt 1) (downloadURL v) v w).1 = none) :
    schedule (main env fs).trace
      = [Event.call (downloadURL v) v, Event.sleep 5, Event.call (downloadURL v) v] := by
  rw [main_of_version env fs v hv]
  obtain ⟨w1, e1, s1⟩ := retryLoop_step_failure env (downloadURL v) v maxRetries 0
    ⟨fs, env.Get.sent baseURL ++ [Event.print (Msg.currentVersion v)]⟩ (by decide) h0
  rw [e1]
  have s2 := (retryLoop_step_success env (downloadURL v) v 2 1 w1 (by decide) h1).1
  have e2 : retryLoop env (downloadURL v) v maxRetries (0 + 1) w1
      = retryLoop env (downloadURL v) v (2 + 1) 1 w1 := rfl
  rw [e2, s2, s1]
  simp only [schedule_start]
  rfl

theorem main_schedule_third (env : Env) (fs : FS) (v : Bytes)
    (hv : (getCurrentVersion env.Get ⟨fs, []⟩).1 = Except.ok v)
    (h0 : ∀ w, (downloadFile (env.attempt 0) (downloadURL v) v w).1 ≠ none)
    (h1 : ∀ w, (downloadFile (env.attempt 1) (downloadURL v) v w).1 ≠ none)
    (h2 : ∀ w, (downloadFile (env.attempt 2) (downloadURL v) v w).1 = none) :
    schedule (main env fs).trace
      = [Event.call (downloadURL v) v, Event.sleep 5, Event.call (downloadURL v) v,
          Event.sleep 5, Event.call (downloadURL v) v] := by
  rw [main_of_version env fs v hv]
  obtain ⟨w1, e1, s1⟩ := retryLoop_step_failure env (downloadURL v) v maxRetries 0
    ⟨fs, env.Get.sent baseURL ++ [Event.print (Msg.currentVersion v)]⟩ (by decide) h0
  rw [e1]
  obtain ⟨w2, e2, s2⟩ := retryLoop_step_failure env (downloadURL v) v 2 1 w1 (by decide) h1
  have e2a : retryLoop env (downloadURL v) v maxRetries (0 + 1) w1
      = retryLoop env (downloadURL v) v (2 + 1) 1 w1 := rfl
  rw [e2a, e2]
  have s3 := (retryLoop_step_success env (downloadURL v) v 1 2 w2 (by decide) h2).1
  have e3 : retryLoop env (downloadURL v) v 2 (1 + 1) w2
      = retryLoop env (downloadURL v) v (1 + 1) 2 w2 := rfl
  rw [e3, s3, s2, s1]
  simp only [schedule_start]
  rfl

theorem main_schedule_none (env : Env) (fs : FS) (v : Bytes)
    (hv : (getCurrentVersion env.Get ⟨fs, []⟩).1 = Except.ok v)
    (h0 : ∀ w, (downloadFile (env.attempt 0) (downloadURL v) v w).1 ≠ none)
    (h1 : ∀ w, (downloadFile (env.attempt 1) (downloadURL v) v w).1 ≠ none)
    (h2 : ∀ w, (downloadFile (env.attempt 2) (downloadURL v) v w).1 ≠ none) :
    schedule (main env fs).trace
        = [Event.call (downloadURL v) v, Event.sleep 5, Event.call (downloadURL v) v,
            Event.sleep 5, Event.call (downloadURL v) v]
      ∧ (main env fs).trace.getLast? = some (Event.print Msg.maxRetriesReached) := by
  rw [main_of_version env fs v hv]
  obtain ⟨w1, e1, s1⟩ := retryLoop_step_failure env (downloadURL v) v maxRetries 0
    ⟨fs, env.Get.sent baseURL ++ [Event.print (Msg.currentVersion v)]⟩ (by decide) h0
  rw [e1]
  obtain ⟨w2, e2, s2⟩ := retryLoop_step_failure env (downloadURL v) v 2 1 w1 (by decide) h1
  have e2a : retryLoop env (downloadURL v) v maxRetries (0 + 1) w1
      = retryLoop env (downloadURL v) v (2 + 1) 1 w1 := rfl
  rw [e2a, e2]
  obtain ⟨w3, e3, s3⟩ := retryLoop_step_last_failure env (downloadURL v) v 1 2 w2
    (by decide) (by decide) h2
  have e3a : retryLoop env (downloadURL v) v 2 (1 + 1) w2
      = retryLoop env (downloadURL v) v (1 + 1) 2 w2 := rfl
  rw [e3a, e3]
  have e4 : retryLoop env (downloadURL v) v 1 (2 + 1) w3
      = w3.log (Event.print Msg.maxRetriesReached) :=
    retryLoop_exhausted env (downloadURL v) v 0 3 w3 (by decide)
  rw [e4, World.log_trace, schedule_append, s3, s2, s1]
  exact ⟨by simp only [schedule_start]; rfl, by simp⟩

/-- C1: after the version is resolved, when every call of downloadFile fails, main
calls it exactly 3 times with exactly 2 sleeps of 5 seconds, one after the first and
one after the second call and none after the third, and the last thing it does is to
print the line that the retries are used up; when the first call succeeds, main calls
downloadFile once, never sleeps and does not print that line. -/
theorem main_retry_all_fail_or_first_success (env : Env) (fs : FS) (v : Bytes)
    (hv : (getCurrentVersion env.Get ⟨fs, []⟩).1 = Except.ok v) :
    ((∀ i, i < 3 → ∀ w, (downloadFile (env.attempt i) (downloadURL v) v w).1 ≠ none) →
        schedule (main env fs).trace
            = [Event.call (downloadURL v) v, Event.sleep 5, Event.call (downloadURL v) v,
                Event.sleep 5, Event.call (downloadURL v) v]
          ∧ calls (main env fs).trace = 3
          ∧ sleeps (main env fs).trace = 2
          ∧ (main env fs).trace.getLast? = some (Event.print Msg.maxRetriesReached))
      ∧ ((∀ w, (downloadFile (env.attempt 0) (downloadURL v) v w).1 = none) →
        schedule (main env fs).trace = [Event.call (downloadURL v) v]
          ∧ calls (main env fs).trace = 1
          ∧ sleeps (main env fs).trace = 0
          ∧ Event.print Msg.maxRetriesReached ∉ (main env fs).trace) := by
  constructor
  · intro h
    obtain ⟨hs, hl⟩ := main_schedule_none env fs v hv (h 0 (by decide)) (h 1 (by decide))
      (h 2 (by decide))
    refine ⟨hs, ?_, ?_, hl⟩
    · rw [← calls_schedule, hs]; simp [calls]
    · rw [← sleeps_schedule, hs]; simp [sleeps]
  · intro h
    obtain ⟨hs, hn⟩ := main_schedule_first env fs v hv h
    refine ⟨hs, ?_, ?_, hn⟩
    · rw [← calls_schedule, hs]; simp [calls]
    · rw [← sleeps_schedule, hs]; simp [sleeps]

theorem main_retry_all_fail_or_first_success_witness :
    (schedule (main ⟨Exchange.answer 200 (utf8 "\x7b\"version\":\"5.2.1\"\x7d"),
          fun _ => Attempt.answer 500 []⟩ ⟨[], []⟩).trace
        = [Event.call (downloadURL (utf8 "5.2.1")) (utf8 "5.2.1"), Event.sleep 5,
            Event.call (downloadURL (utf8 "5.2.1")) (utf8 "5.2.1"), Event.sleep 5,
            Event.call (downloadURL (utf8 "5.2.1")) (utf8 "5.2.1")])
      ∧ (schedule (main ⟨Exchange.answer 200 (utf8 "\x7b\"version\":\"5.2.1\"\x7d"),
          fun _ => Attempt.answer 200 [80, 75]⟩ ⟨[], []⟩).trace
        = [Event.call (downloadURL (utf8 "5.2.1")) (utf8 "5.2.1")]) :=
  ⟨((main_retry_all_fail_or_first_success
      ⟨Exchange.answer 200 (utf8 "\x7b\"version\":\"5.2.1\"\x7d"), fun _ => Attempt.answer 500 []⟩
      ⟨[], []⟩ (utf8 "5.2.1") rfl).1
      (fun _ _ _ => by simp [downloadFile, Attempt.answer, Exchange.answer, Exchange.result, StatusOK])).1,
   ((main_retry_all_fail_or_first_success
      ⟨Exchange.answer 200 (utf8 "\x7b\"version\":\"5.2.1\"\x7d"), fun _ => Attempt.answer 200 [80, 75]⟩
      ⟨[], []⟩ (utf8 "5.2.1") rfl).2
      (fun _ => by simp [downloadFile, Attempt.answer, Exchange.answer, Exchange.result, StatusOK])).1⟩

/-- C9: after the version is resolved, when the k-th call of downloadFile (k from 1 to
3) is the first that succeeds, main calls downloadFile exactly k times and sleeps
exactly k-1 times, 5 seconds each: calls and sleeps alternate, every sleep stands
between a failed call and the next call, and nothing follows the successful call.
Whatever the outcomes are, main never calls downloadFile more than 3 times. -/
theorem main_stops_at_first_success (env : Env) (fs : FS) (v : Bytes) (k : Nat)
    (hv : (getCurrentVersion env.Get ⟨fs, []⟩).1 = Except.ok v)
    (hk1 : 1 ≤ k) (hk3 : k ≤ 3)
    (hfail : ∀ j, j + 1 < k → ∀ w, (downloadFile (env.attempt j) (downloadURL v) v w).1 ≠ none)
    (hsucc : ∀ w, (downloadFile (env.attempt (k - 1)) (downloadURL v) v w).1 = none) :
    schedule (main env fs).trace
        = List.intersperse (Event.sleep 5) (List.replicate k (Event.call (downloadURL v) v))
      ∧ calls (main env fs).trace = k
      ∧ sleeps (main env fs).trace = k - 1
      ∧ ∀ (env0 : Env) (fs0 : FS), calls (main env0 fs0).trace ≤ 3 := by
  have hs : schedule (main env fs).trace
      = List.intersperse (Event.sleep 5) (List.replicate k (Event.call (downloadURL v) v)) := by
    interval_cases k
    · exact (main_schedule_first env fs v hv hsucc).1
    · exact main_schedule_second env fs v hv (hfail 0 (by decide)) hsucc
    · exact main_schedule_third env fs v hv (hfail 0 (by decide)) (hfail 1 (by decide)) hsucc
  refine ⟨hs, ?_, ?_, fun env0 fs0 => main_calls_le env0 fs0⟩
  · rw [← calls_schedule, hs]
    interval_cases k <;> simp [calls, List.replicate, List.intersperse]
  · rw [← sleeps_schedule, hs]
    interval_cases k <;> simp [sleeps, List.replicate, List.intersperse]

theorem main_stops_at_first_success_witness :
    schedule (main ⟨Exchange.answer 200 (utf8 "\x7b\"version\":\"5.2.1\"\x7d"),
        fun i => if i = 1 then Attempt.answer 200 [80, 75] else Attempt.answer 500 []⟩
        ⟨[], []⟩).trace
      = List.intersperse (Event.sleep 5)
          (List.replicate 2 (Event.call (downloadURL (utf8 "5.2.1")) (utf8 "5.2.1"))) :=
  (main_stops_at_first_success
    ⟨Exchange.answer 200 (utf8 "\x7b\"version\":\"5.2.1\"\x7d"),
      fun i => if i = 1 then Attempt.answer 200 [80, 75] else Attempt.answer 500 []⟩
    ⟨[], []⟩ (utf8 "5.2.1") 2 rfl (by decide) (by decide)
    (fun j hj w => by
      have h0 : j = 0 := by omega
      subst h0
      simp [downloadFile, Attempt.answer, Exchange.answer, Exchange.result, StatusOK])
    (fun w => by simp [downloadFile, Attempt.answer, Exchange.answer, Exchange.result, StatusOK])).1

/-! ## Decoding the version -/

theorem storeString_error (x : JSON) (field : Bytes) :
    (storeString x field).2 = none ↔ (x.isString = true ∨ x.isNull = true) := by
  cases x <;> simp [storeString, JSON.isString, JSON.isNull]

theorem decodeObject_saved (ms : List (Bytes × JSON)) (v : VersionResponse) (e : JSONError) :
    (decodeObject ms v (some e)).2 = some e := by
  induction ms generalizing v with
  | nil => rfl
  | cons m ms ih =>
    obtain ⟨key, x⟩ := m
    unfold decodeObject
    split
    · exact ih _
    · exact ih _

theorem decodeObject_error (ms : List (Bytes × JSON)) (v : VersionResponse) :
    (decodeObject ms v none).2 = none
      ↔ ∀ key x, (key, x) ∈ ms → matchesField key = true →
          (x.isString = true ∨ x.isNull = true) := by
  induction ms generalizing v with
  | nil => simp [decodeObject]
  | cons m ms ih =>
    obtain ⟨key, x⟩ := m
    unfold decodeObject
    by_cases hm : matchesField key = true
    · rw [if_pos hm]
      cases hx : (storeString x v.Version).2 with
      | none =>
        have hgood := (storeString_error x v.Version).mp hx
        simp only [saveError]
        rw [ih]
        constructor
        · intro h k y hmem hk
          rcases List.mem_cons.mp hmem with heq | hmem
          · injection heq with h1 h2
            subst h1 h2
            exact hgood
          · exact h k y hmem hk
        · intro h k y hmem hk
          exact h k y (List.mem_cons_of_mem _ hmem) hk
      | some e =>
        simp only [saveError]
        rw [decodeObject_saved]
        constructor
        · intro h; cases h
        · intro h
          have := (storeString_error x v.Version).mpr (h key x (List.mem_cons_self _ _) hm)
          rw [hx] at this
          cases this
    · rw [if_neg hm, ih]
      constructor
      · intro h k y hmem hk
        rcases List.mem_cons.mp hmem with heq | hmem
        · injection heq with h1 h2
          subst h1
          exact absurd hk hm
        · exact h k y hmem hk
      · intro h k y hmem hk
        exact h k y (List.mem_cons_of_mem _ hmem) hk

theorem decodeObject_filter (ms : List (Bytes × JSON)) (v : VersionResponse)
    (saved : Option JSONError) :
    decodeObject ms v saved = decodeObject (ms.filter fun m => matchesField m.1) v saved := by
  induction ms generalizing v saved with
  | nil => rfl
  | cons m ms ih =>
    obtain ⟨key, x⟩ := m
    by_cases hm : matchesField key = true
    · rw [List.filter_cons_of_pos (by simpa using hm)]
      unfold decodeObject
      rw [if_pos hm, if_pos hm]
      exact ih _ _
    · rw [List.filter_cons_of_neg (by simpa using hm)]
      conv_lhs => unfold decodeObject
      rw [if_neg hm]
      exact ih _ _

theorem decode_error_iff (body : Bytes) :
    (Decode body ⟨[]⟩).2 ≠ none
      ↔ ((∃ e, readValue body = Except.error e)
        ∨ (∃ x, readValue body = Except.ok x ∧ x.isObject = false ∧ x.isNull = false)
        ∨ (∃ ms key x, readValue body = Except.ok (JSON.object ms) ∧ (key, x) ∈ ms
            ∧ matchesField key = true ∧ x.isString = false ∧ x.isNull = false)) := by
  unfold Decode
  cases hr : readValue body with
  | error e => simp
  | ok x =>
    cases x with
    | null => simp [unmarshal, JSON.isObject, JSON.isNull]
    | bool b => simp [unmarshal, JSON.isObject, JSON.isNull]
    | number n => simp [unmarshal, JSON.isObject, JSON.isNull]
    | string t => simp [unmarshal, JSON.isObject, JSON.isNull]
    | array xs => simp [unmarshal, JSON.isObject, JSON.isNull]
    | object ms =>
      simp only [unmarshal, ne_eq, decodeObject_error, reduceCtorEq, exists_false, false_or,
        Except.ok.injEq, JSON.isObject, Bool.true_eq_false, false_and, and_false, exists_const,
        JSON.object.injEq, exists_and_left, exists_eq_left']
      constructor
      · intro h
        by_contra hcon
        apply h
        intro key x hmem hk
        by_contra hx
        apply hcon
        refine ⟨key, x, hmem, hk, ?_, ?_⟩
        · cases hs : x.isString
          · rfl
          · exact absurd (Or.inl hs) hx
        · cases hn : x.isNull
          · rfl
          · exact absurd (Or.inr hn) hx
      · rintro ⟨key, x, hmem, hk, hs, hn⟩ h
        rcases h key x hmem hk with h1 | h1
        · rw [hs] at h1; cases h1
        · rw [hn] at h1; cases h1

/-! ## The scanner on JSON text -/

theorem complete_finished (st : State) (ps : List Frame) (tk : Bytes) (x : JSON) :
    scanner.complete ⟨st, ps, tk, none⟩ x = finished ps x := by
  unfold finished scanner.complete
  cases ps with
  | nil => rfl
  | cons f ps => cases f <;> rfl

theorem foldl_done (s : scanner) (x : JSON) (h : s.value = some x) (bs : Bytes) :
    List.foldl scanner.next s bs = s := by
  induction bs with
  | nil => rfl
  | cons c bs ih =>
    have : s.next c = s := by
      unfold scanner.next
      rw [h]
    rw [List.foldl_cons, this, ih]

theorem next_blank (st : State) (ps : List Frame) (tk : Bytes) (c : Nat)
    (hc : c = 32 ∨ c = 9 ∨ c = 10 ∨ c = 13)
    (hst : st = State.stateBeginValue ∨ st = State.stateBeginValueOrEmpty
      ∨ st = State.stateBeginStringOrEmpty ∨ st = State.stateBeginString
      ∨ (st = State.stateEndValue ∧ ps ≠ [])) :
    scanner.next ⟨st, ps, tk, none⟩ c = ⟨st, ps, tk, none⟩ := by
  have hsp : isSpace c = true := by
    rcases hc with h | h | h | h <;> subst h <;> rfl
  rcases hst with h | h | h | h | ⟨h, hps⟩ <;> subst h
  · simp [scanner.next, stateBeginValue, hsp]
  · simp [scanner.next, hsp]
  · simp [scanner.next, hsp]
  · simp [scanner.next, stateBeginString, hsp]
  · cases ps with
    | nil => exact absurd rfl hps
    | cons f ps => simp [scanner.next, stateEndValue, hsp]

theorem foldl_blank (st : State) (ps : List Frame) (tk ws rest : Bytes) (hws : Blank ws)
    (hst : st = State.stateBeginValue ∨ st = State.stateBeginValueOrEmpty
      ∨ st = State.stateBeginStringOrEmpty ∨ st = State.stateBeginString
      ∨ (st = State.stateEndValue ∧ ps ≠ [])) :
    List.foldl scanner.next ⟨st, ps, tk, none⟩ (ws ++ rest)
      = List.foldl scanner.next ⟨st, ps, tk, none⟩ rest := by
  induction ws with
  | nil => rfl
  | cons c ws ih =>
    rw [List.cons_append, List.foldl_cons, next_blank st ps tk c (hws c (by simp)) hst]
    exact ih (fun b hb => hws b (List.mem_cons_of_mem _ hb))

theorem reads_null (st : State) (ps : List Frame) (tk : Bytes) (hst : ready st) :
    List.foldl scanner.next ⟨st, ps, tk, none⟩ [110, 117, 108, 108] = finished ps JSON.null := by
  rcases hst with h | h <;> subst h <;>
    simp [List.foldl, scanner.next, stateBeginValue, isSpace, expect, complete_finished]

theorem reads_true (st : State) (ps : List Frame) (tk : Bytes) (hst : ready st) :
    List.foldl scanner.next ⟨st, ps, tk, none⟩ [116, 114, 117, 101]
      = finished ps (JSON.bool true) := by
  rcases hst with h | h <;> subst h <;>
    simp [List.foldl, scanner.next, stateBeginValue, isSpace, expect, complete_finished]

theorem reads_false (st : State) (ps : List Frame) (tk : Bytes) (hst : ready st) :
    List.foldl scanner.next ⟨st, ps, tk, none⟩ [102, 97, 108, 115, 101]
      = finished ps (JSON.bool false) := by
  rcases hst with h | h <;> subst h <;>
    simp [List.foldl, scanner.next, stateBeginValue, isSpace, expect, complete_finished]

theorem next_plain (ps : List Frame) (tk : Bytes) (b : Nat)
    (hb : 0x20 ≤ b ∧ b ≠ 34 ∧ b ≠ 92) :
    scanner.next ⟨State.stateInString, ps, tk, none⟩ b
      = ⟨State.stateInString, ps, tk ++ [b], none⟩ := by
  obtain ⟨h1, h2, h3⟩ := hb
  have h4 : ¬ b < 0x20 := by omega
  simp [scanner.next, h2, h3, h4]

theorem foldl_plain (ps : List Frame) (bs tk rest : Bytes)
    (hbs : ∀ b ∈ bs, 0x20 ≤ b ∧ b ≠ 34 ∧ b ≠ 92) :
    List.foldl scanner.next ⟨State.stateInString, ps, tk, none⟩ (bs ++ rest)
      = List.foldl scanner.next ⟨State.stateInString, ps, tk ++ bs, none⟩ rest := by
  induction bs generalizing tk with
  | nil => simp
  | cons b bs ih =>
    rw [List.cons_append, List.foldl_cons, next_plain ps tk b (hbs b (by simp)),
      ih (tk ++ [b]) (fun c hc => hbs c (List.mem_cons_of_mem _ hc))]
    simp

theorem EncodeRune_plain (r : Nat) (h20 : 0x20 ≤ r) (h22 : r ≠ 0x22) (h5c : r ≠ 0x5C) :
    ∀ b ∈ EncodeRune r, 0x20 ≤ b ∧ b ≠ 34 ∧ b ≠ 92 := by
  intro b hb
  unfold EncodeRune at hb
  split at hb
  · simp at hb; subst hb; exact ⟨h20, h22, h5c⟩
  · split at hb
    · simp at hb; rcases hb with h | h <;> subst h <;> omega
    · split at hb
      · simp at hb; rcases hb with h | h | h <;> subst h <;> omega
      · split at hb
        · simp at hb; rcases hb with h | h | h <;> subst h <;> omega
        · simp at hb; rcases hb with h | h | h | h <;> subst h <;> omega

theorem hex4_some (x0 x1 x2 x3 r : Nat) (h : hex4 x0 x1 x2 x3 = some r) :
    ∃ h0 h1 h2 h3, hexDigit x0 = some h0 ∧ hexDigit x1 = some h1 ∧ hexDigit x2 = some h2
      ∧ hexDigit x3 = some h3 ∧ r = h0 * 4096 + h1 * 256 + h2 * 16 + h3 := by
  unfold hex4 at h
  cases e0 : hexDigit x0 with
  | none => simp [e0] at h
  | some h0 =>
    cases e1 : hexDigit x1 with
    | none => simp [e0, e1] at h
    | some h1 =>
      cases e2 : hexDigit x2 with
      | none => simp [e0, e1, e2] at h
      | some h2 =>
        cases e3 : hexDigit x3 with
        | none => simp [e0, e1, e2, e3] at h
        | some h3 =>
          simp [e0, e1, e2, e3] at h
          exact ⟨h0, h1, h2, h3, rfl, rfl, rfl, rfl, h.symm⟩

theorem foldl_unicode (ps : List Frame) (tk rest : Bytes) (x0 x1 x2 x3 r : Nat)
    (h : hex4 x0 x1 x2 x3 = some r) :
    List.foldl scanner.next ⟨State.stateInString, ps, tk, none⟩
        (92 :: 117 :: x0 :: x1 :: x2 :: x3 :: rest)
      = List.foldl scanner.next
          ⟨State.stateInString, ps, tk ++ [92, 117, x0, x1, x2, x3], none⟩ rest := by
  obtain ⟨h0, h1, h2, h3, e0, e1, e2, e3, _⟩ := hex4_some x0 x1 x2 x3 r h
  simp [List.foldl, scanner.next, e0, e1, e2, e3]

theorem foldl_stringLit (raw s : Bytes) (h : StringLit raw s) :
    ∀ (ps : List Frame) (tk rest : Bytes),
      List.foldl scanner.next ⟨State.stateInString, ps, tk, none⟩ (raw ++ rest)
        = List.foldl scanner.next ⟨State.stateInString, ps, tk ++ raw, none⟩ rest := by
  induction h with
  | nil => intro ps tk rest; simp
  | char r raw s hs h20 h22 h5c _ ih =>
    intro ps tk rest
    rw [List.append_assoc, foldl_plain ps (EncodeRune r) tk _ (EncodeRune_plain r h20 h22 h5c),
      ih, List.append_assoc]
  | escape e b raw s he _ ih =>
    intro ps tk rest
    have hstep : List.foldl scanner.next ⟨State.stateInString, ps, tk, none⟩ (92 :: e :: (raw ++ rest))
        = List.foldl scanner.next ⟨State.stateInString, ps, tk ++ [92, e], none⟩ (raw ++ rest) := by
      simp only [List.mem_cons, Prod.mk.injEq, List.mem_singleton, List.not_mem_nil, or_false] at he
      rcases he with ⟨h, _⟩ | ⟨h, _⟩ | ⟨h, _⟩ | ⟨h, _⟩ | ⟨h, _⟩ | ⟨h, _⟩ | ⟨h, _⟩ | ⟨h, _⟩ <;>
        subst h <;> simp [List.foldl, scanner.next]
    rw [List.cons_append, List.cons_append, hstep, ih]
    simp
  | unicode x0 x1 x2 x3 r raw s hx _ _ ih =>
    intro ps tk rest
    simp only [List.cons_append]
    rw [foldl_unicode ps tk _ x0 x1 x2 x3 r hx, ih]
    simp
  | pair x0 x1 x2 x3 y0 y1 y2 y3 hi lo raw s hx hy _ _ _ _ _ ih =>
    intro ps tk rest
    simp only [List.cons_append]
    rw [foldl_unicode ps tk _ x0 x1 x2 x3 hi hx, foldl_unicode ps _ _ y0 y1 y2 y3 lo hy, ih]
    simp

theorem unquoteFrom_skip (pre rest : Bytes) :
    unquoteFrom pre.length (pre ++ rest) = unquoteFrom 0 rest := by
  induction pre with
  | nil => rfl
  | cons c pre ih =>
    rw [List.cons_append, List.length_cons, unquoteFrom]
    exact ih

theorem unquoteFrom_item (c : Nat) (tl rest out : Bytes)
    (h : unquoteStep c (tl ++ rest) = (out, tl.length + 1)) :
    unquoteFrom 0 (c :: tl ++ rest) = out ++ unquoteFrom 0 rest := by
  rw [List.cons_append, unquoteFrom]
  simp only [h, Nat.add_sub_cancel]
  rw [unquoteFrom_skip]

theorem getu4_hex4 (x0 x1 x2 x3 : Nat) (rest : Bytes) :
    getu4 (92 :: 117 :: x0 :: x1 :: x2 :: x3 :: rest) = hex4 x0 x1 x2 x3 := by
  simp [getu4, hex4]

theorem unquoteStep_char (r : Nat) (hs : Scalar r) (h5c : r ≠ 0x5C) (rest : Bytes) :
    ∃ c tl, EncodeRune r = c :: tl ∧ unquoteStep c (tl ++ rest) = (EncodeRune r, tl.length + 1) := by
  by_cases h1 : r < 0x80
  · refine ⟨r, [], by simp [EncodeRune, h1], ?_⟩
    have h92 : r ≠ 92 := h5c
    simp [unquoteStep, EncodeRune, h1, h92]
  · by_cases h2 : r < 0x800
    · refine ⟨0xC0 + r / 64, [0x80 + r % 64], by simp [EncodeRune, h1, h2], ?_⟩
      have e1 : ¬ (0xC0 + r / 64 = 92) := by omega
      have e2 : ¬ (0xC0 + r / 64 < 0x80) := by omega
      have e3 : 0xC2 ≤ 0xC0 + r / 64 ∧ 0xC0 + r / 64 ≤ 0xDF := by omega
      have e4 : 0x80 ≤ 0x80 + r % 64 ∧ 0x80 + r % 64 ≤ 0xBF := by omega
      have hsize : DecodeRuneSize (0xC0 + r / 64) ([0x80 + r % 64] ++ rest) = 2 := by
        simp only [DecodeRuneSize, List.singleton_append]
        rw [if_pos e3, if_pos e4]
      simp only [unquoteStep, if_neg e1, if_neg e2, hsize]
      simp [EncodeRune, h1, h2]
    · have hsur : ¬ ((0xD800 ≤ r ∧ r < 0xE000) ∨ 0x10FFFF < r) := by
        unfold Scalar at hs
        omega
      by_cases h3 : r < 0x10000
      · refine ⟨0xE0 + r / 4096, [0x80 + r / 64 % 64, 0x80 + r % 64],
          by simp [EncodeRune, h1, h2, hsur, h3], ?_⟩
        have e1 : ¬ (0xE0 + r / 4096 = 92) := by omega
        have e2 : ¬ (0xE0 + r / 4096 < 0x80) := by omega
        have e3 : ¬ (0xC2 ≤ 0xE0 + r / 4096 ∧ 0xE0 + r / 4096 ≤ 0xDF) := by omega
        have e4 : 0xE0 ≤ 0xE0 + r / 4096 ∧ 0xE0 + r / 4096 ≤ 0xEF := by omega
        have e5 : (if 0xE0 + r / 4096 = 0xE0 then 0xA0 else 0x80) ≤ 0x80 + r / 64 % 64
            ∧ 0x80 + r / 64 % 64 ≤ (if 0xE0 + r / 4096 = 0xED then 0x9F else 0xBF)
            ∧ 0x80 ≤ 0x80 + r % 64 ∧ 0x80 + r % 64 ≤ 0xBF := by
          unfold Scalar at hs
          refine ⟨?_, ?_, by omega, by omega⟩
          · split <;> omega
          · split <;> omega
        have hsize : DecodeRuneSize (0xE0 + r / 4096)
            ([0x80 + r / 64 % 64, 0x80 + r % 64] ++ rest) = 3 := by
          simp only [DecodeRuneSize, List.cons_append, List.nil_append]
          rw [if_neg e3, if_pos e4, if_pos e5]
        simp only [unquoteStep, if_neg e1, if_neg e2, hsize]
        simp [EncodeRune, h1, h2, hsur, h3]
      · refine ⟨0xF0 + r / 262144, [0x80 + r / 4096 % 64, 0x80 + r / 64 % 64, 0x80 + r % 64],
          by simp [EncodeRune, h1, h2, hsur, h3], ?_⟩
        have hmax : r ≤ 0x10FFFF := by omega
        have e1 : ¬ (0xF0 + r / 262144 = 92) := by omega
        have e2 : ¬ (0xF0 + r / 262144 < 0x80) := by omega
        have e3 : ¬ (0xC2 ≤ 0xF0 + r / 262144 ∧ 0xF0 + r / 262144 ≤ 0xDF) := by omega
        have e4 : ¬ (0xE0 ≤ 0xF0 + r / 262144 ∧ 0xF0 + r / 262144 ≤ 0xEF) := by omega
        have e5 : 0xF0 ≤ 0xF0 + r / 262144 ∧ 0xF0 + r / 262144 ≤ 0xF4 := by omega
        have e6 : (if 0xF0 + r / 262144 = 0xF0 then 0x90 else 0x80) ≤ 0x80 + r / 4096 % 64
            ∧ 0x80 + r / 4096 % 64 ≤ (if 0xF0 + r / 262144 = 0xF4 then 0x8F else 0xBF)
            ∧ 0x80 ≤ 0x80 + r / 64 % 64 ∧ 0x80 + r / 64 % 64 ≤ 0xBF
            ∧ 0x80 ≤ 0x80 + r % 64 ∧ 0x80 + r % 64 ≤ 0xBF := by
          refine ⟨?_, ?_, by omega, by omega, by omega, by omega⟩
          · split <;> omega
          · split <;> omega
        have hsize : DecodeRuneSize (0xF0 + r / 262144)
            ([0x80 + r / 4096 % 64, 0x80 + r / 64 % 64, 0x80 + r % 64] ++ rest) = 4 := by
          simp only [DecodeRuneSize, List.cons_append, List.nil_append]
          rw [if_neg e3, if_neg e4, if_pos e5, if_pos e6]
        simp only [unquoteStep, if_neg e1, if_neg e2, hsize]
        simp [EncodeRune, h1, h2, hsur, h3]

theorem unquote_stringLit (raw s : Bytes) (h : StringLit raw s) : unquote raw = s := by
  unfold unquote
  induction h with
  | nil => rfl
  | char r raw s hs h20 h22 h5c _ ih =>
    obtain ⟨c, tl, he, hstep⟩ := unquoteStep_char r hs h5c raw
    have key := unquoteFrom_item c tl raw (EncodeRune r) hstep
    rw [← he] at key
    rw [key, ih]
  | escape e b raw s he _ ih =>
    have hstep : unquoteStep 92 ([e] ++ raw) = ([b], [e].length + 1) := by
      simp only [List.mem_cons, Prod.mk.injEq, List.mem_singleton, List.not_mem_nil, or_false] at he
      rcases he with ⟨h1, h2⟩ | ⟨h1, h2⟩ | ⟨h1, h2⟩ | ⟨h1, h2⟩ | ⟨h1, h2⟩ | ⟨h1, h2⟩ | ⟨h1, h2⟩
          | ⟨h1, h2⟩ <;> subst h1 h2 <;> simp [unquoteStep, unescape]
    have := unquoteFrom_item 92 [e] raw [b] hstep
    simp only [List.cons_append, List.nil_append, List.singleton_append] at this
    rw [this, ih]
  | unicode x0 x1 x2 x3 r raw s hx hs _ ih =>
    have hsur : ¬ (0xD800 ≤ r ∧ r < 0xE000) := by
      unfold Scalar at hs
      omega
    have hstep : unquoteStep 92 ([117, x0, x1, x2, x3] ++ raw)
        = (EncodeRune r, [117, x0, x1, x2, x3].length + 1) := by
      simp only [unquoteStep, List.cons_append, List.nil_append, getu4_hex4, hx]
      simp [hsur]
    have := unquoteFrom_item 92 [117, x0, x1, x2, x3] raw (EncodeRune r) hstep
    simp only [List.cons_append, List.nil_append] at this
    rw [this, ih]
  | pair x0 x1 x2 x3 y0 y1 y2 y3 hi lo raw s hx hy h1 h2 h3 h4 _ ih =>
    have hdec : utf16DecodeRune hi lo = 0x10000 + (hi - 0xD800) * 1024 + (lo - 0xDC00) := by
      unfold utf16DecodeRune
      rw [if_pos ⟨h1, h2, h3, h4⟩]
      omega
    have hne : utf16DecodeRune hi lo ≠ 0xFFFD := by
      rw [hdec]
      omega
    have hstep : unquoteStep 92 ([117, x0, x1, x2, x3, 92, 117, y0, y1, y2, y3] ++ raw)
        = (EncodeRune (0x10000 + (hi - 0xD800) * 1024 + (lo - 0xDC00)),
            [117, x0, x1, x2, x3, 92, 117, y0, y1, y2, y3].length + 1) := by
      have hlt : hi < 57344 := by omega
      simp only [unquoteStep, List.cons_append, List.nil_append, getu4_hex4, hx, List.drop,
        hy]
      simp only [h1, hlt, and_self, if_true, ite_true, reduceIte]
      have hg : getu4 ([92, 117, y0, y1, y2, y3].append raw) = some lo := by
        rw [← hy]
        exact getu4_hex4 y0 y1 y2 y3 raw
      rw [hg]
      have hne2 : ¬ (65536 + (hi - 55296) * 1024 + (lo - 56320) = 65533) := by omega
      simp only [ne_eq, hdec, List.length_cons, List.length_nil]
      rw [if_pos hne2]
    have := unquoteFrom_item 92 [117, x0, x1, x2, x3, 92, 117, y0, y1, y2, y3] raw _ hstep
    simp only [List.cons_append, List.nil_append] at this
    rw [this, ih]

theorem reads_string (st : State) (ps : List Frame) (tk raw s : Bytes) (hst : ready st)
    (hps : valueFrame ps) (h : StringLit raw s) :
    List.foldl scanner.next ⟨st, ps, tk, none⟩ (34 :: raw ++ [34])
      = finished ps (JSON.string s) := by
  have h1 : scanner.next ⟨st, ps, tk, none⟩ 34 = ⟨State.stateInString, ps, [], none⟩ := by
    rcases hst with h | h <;> subst h <;> simp [scanner.next, stateBeginValue, isSpace]
  rw [List.cons_append, List.foldl_cons, h1, foldl_stringLit raw s h, List.nil_append]
  simp only [List.foldl, scanner.next]
  rw [unquote_stringLit raw s h]
  cases ps with
  | nil => simp [complete_finished]
  | cons f ps =>
    cases f with
    | parseObjectKey ms k => exact absurd hps (by simp [valueFrame])
    | parseObjectValue ms k => simp [complete_finished]
    | parseArrayValue xs => simp [complete_finished]

theorem reads_key (st : State) (ps : List Frame) (tk raw key k0 rest : Bytes)
    (ms0 : List (Bytes × JSON))
    (hst : st = State.stateBeginStringOrEmpty ∨ st = State.stateBeginString)
    (h : StringLit raw key) :
    List.foldl scanner.next ⟨st, Frame.parseObjectKey ms0 k0 :: ps, tk, none⟩
        (34 :: raw ++ 34 :: rest)
      = List.foldl scanner.next
          ⟨State.stateEndValue, Frame.parseObjectKey ms0 key :: ps, [], none⟩ rest := by
  have h1 : scanner.next ⟨st, Frame.parseObjectKey ms0 k0 :: ps, tk, none⟩ 34
      = ⟨State.stateInString, Frame.parseObjectKey ms0 k0 :: ps, [], none⟩ := by
    rcases hst with h | h <;> subst h <;> simp [scanner.next, stateBeginString, isSpace]
  rw [List.cons_append, List.foldl_cons, h1, foldl_stringLit raw key h, List.nil_append,
    List.foldl_cons]
  simp only [scanner.next]
  rw [unquote_stringLit raw key h]
  simp

theorem foldl_digits (st : State) (ps : List Frame) (ds tk rest : Bytes) (hds : Digits ds)
    (hst : st = State.state1 ∨ st = State.stateDot0 ∨ st = State.stateE0) :
    List.foldl scanner.next ⟨st, ps, tk, none⟩ (ds ++ rest)
      = List.foldl scanner.next ⟨st, ps, tk ++ ds, none⟩ rest := by
  induction ds generalizing tk with
  | nil => simp
  | cons c ds ih =>
    have hc : 48 ≤ c ∧ c ≤ 57 := hds c (by simp)
    have hn : scanner.next ⟨st, ps, tk, none⟩ c = ⟨st, ps, tk ++ [c], none⟩ := by
      rcases hst with h | h | h <;> subst h <;> simp [scanner.next, hc]
    rw [List.cons_append, List.foldl_cons, hn,
      ih (tk ++ [c]) (fun b hb => hds b (List.mem_cons_of_mem _ hb))]
    simp

theorem number_int (st : State) (ps : List Frame) (tk sign int : Bytes) (hst : ready st)
    (hsign : sign = [] ∨ sign = [45])
    (hint : int = [48] ∨ ∃ d ds, int = d :: ds ∧ 49 ≤ d ∧ d ≤ 57 ∧ Digits ds) :
    ∃ st1, (st1 = State.state0 ∨ st1 = State.state1) ∧ ∀ rest,
      List.foldl scanner.next ⟨st, ps, tk, none⟩ (sign ++ int ++ rest)
        = List.foldl scanner.next ⟨st1, ps, sign ++ int, none⟩ rest := by
  rcases hsign with hs | hs <;> subst hs
  · rcases hint with hi | ⟨d, ds, hi, hd1, hd2, hds⟩ <;> subst hi
    · refine ⟨State.state0, Or.inl rfl, fun rest => ?_⟩
      rcases hst with h | h <;> subst h <;>
        simp [List.foldl, scanner.next, stateBeginValue, isSpace]
    · refine ⟨State.state1, Or.inr rfl, fun rest => ?_⟩
      have hd : 49 ≤ d ∧ d ≤ 57 := ⟨hd1, hd2⟩
      have hn : scanner.next ⟨st, ps, tk, none⟩ d = ⟨State.state1, ps, [d], none⟩ := by
        have e1 : d ≠ 123 := by omega
        have e2 : d ≠ 91 := by omega
        have e3 : d ≠ 34 := by omega
        have e4 : d ≠ 45 := by omega
        have e5 : d ≠ 48 := by omega
        have e6 : d ≠ 116 := by omega
        have e7 : d ≠ 102 := by omega
        have e8 : d ≠ 110 := by omega
        have e9 : d ≠ 93 := by omega
        have e10 : isSpace d = false := by
          have : d ≠ 32 ∧ d ≠ 9 ∧ d ≠ 13 ∧ d ≠ 10 := by omega
          simp [isSpace, this]
        rcases hst with h | h <;> subst h <;>
          simp [scanner.next, stateBeginValue, e1, e2, e3, e4, e5, e6, e7, e8, e9, e10, hd]
      rw [List.nil_append, List.cons_append, List.foldl_cons, hn,
        foldl_digits State.state1 ps ds [d] rest hds (Or.inl rfl)]
      simp
  · have hn : scanner.next ⟨st, ps, tk, none⟩ 45 = ⟨State.stateNeg, ps, [45], none⟩ := by
      rcases hst with h | h <;> subst h <;> simp [scanner.next, stateBeginValue, isSpace]
    rcases hint with hi | ⟨d, ds, hi, hd1, hd2, hds⟩ <;> subst hi
    · refine ⟨State.state0, Or.inl rfl, fun rest => ?_⟩
      simp only [List.cons_append, List.nil_append, List.foldl_cons, hn]
      simp [scanner.next]
    · refine ⟨State.state1, Or.inr rfl, fun rest => ?_⟩
      have hd : 49 ≤ d ∧ d ≤ 57 := ⟨hd1, hd2⟩
      have e5 : d ≠ 48 := by omega
      have hn2 : scanner.next ⟨State.stateNeg, ps, [45], none⟩ d
          = ⟨State.state1, ps, [45, d], none⟩ := by
        simp [scanner.next, e5, hd]
      simp only [List.cons_append, List.nil_append, List.foldl_cons, hn, hn2]
      rw [foldl_digits State.state1 ps ds [45, d] rest hds (Or.inl rfl)]
      simp

theorem number_frac (st1 : State) (ps : List Frame) (tk frac : Bytes)
    (hst : st1 = State.state0 ∨ st1 = State.state1)
    (hfrac : frac = [] ∨ ∃ ds, frac = 46 :: ds ∧ ds ≠ [] ∧ Digits ds) :
    ∃ st2, (st2 = State.state0 ∨ st2 = State.state1 ∨ st2 = State.stateDot0) ∧ ∀ rest,
      List.foldl scanner.next ⟨st1, ps, tk, none⟩ (frac ++ rest)
        = List.foldl scanner.next ⟨st2, ps, tk ++ frac, none⟩ rest := by
  rcases hfrac with hf | ⟨ds, hf, hne, hds⟩ <;> subst hf
  · exact ⟨st1, by tauto, fun rest => by simp⟩
  · refine ⟨State.stateDot0, Or.inr (Or.inr rfl), fun rest => ?_⟩
    cases ds with
    | nil => exact absurd rfl hne
    | cons d ds =>
      have hd : 48 ≤ d ∧ d ≤ 57 := hds d (by simp)
      have hn : scanner.next ⟨st1, ps, tk, none⟩ 46 = ⟨State.stateDot, ps, tk ++ [46], none⟩ := by
        rcases hst with h | h <;> subst h <;> simp [scanner.next, state0]
      have hn2 : scanner.next ⟨State.stateDot, ps, tk ++ [46], none⟩ d
          = ⟨State.stateDot0, ps, tk ++ [46] ++ [d], none⟩ := by
        simp [scanner.next, hd]
      simp only [List.cons_append, List.foldl_cons, hn, hn2]
      rw [foldl_digits State.stateDot0 ps ds _ rest
        (fun b hb => hds b (List.mem_cons_of_mem _ hb)) (Or.inr (Or.inl rfl))]
      simp

theorem number_exp (st2 : State) (ps : List Frame) (tk exp : Bytes)
    (hst : st2 = State.state0 ∨ st2 = State.state1 ∨ st2 = State.stateDot0)
    (hexp : exp = [] ∨ ∃ e sg ds, exp = e :: sg ++ ds ∧ (e = 101 ∨ e = 69)
        ∧ (sg = [] ∨ sg = [43] ∨ sg = [45]) ∧ ds ≠ [] ∧ Digits ds) :
    ∃ st3, (st3 = State.state0 ∨ st3 = State.state1 ∨ st3 = State.stateDot0
        ∨ st3 = State.stateE0) ∧ ∀ rest,
      List.foldl scanner.next ⟨st2, ps, tk, none⟩ (exp ++ rest)
        = List.foldl scanner.next ⟨st3, ps, tk ++ exp, none⟩ rest := by
  rcases hexp with he | ⟨e, sg, ds, he, hee, hsg, hne, hds⟩ <;> subst he
  · exact ⟨st2, by tauto, fun rest => by simp⟩
  · refine ⟨State.stateE0, Or.inr (Or.inr (Or.inr rfl)), fun rest => ?_⟩
    cases ds with
    | nil => exact absurd rfl hne
    | cons d ds =>
      have hd : 48 ≤ d ∧ d ≤ 57 := hds d (by simp)
      have hd43 : d ≠ 43 := by omega
      have hd45 : d ≠ 45 := by omega
      have hn : scanner.next ⟨st2, ps, tk, none⟩ e = ⟨State.stateE, ps, tk ++ [e], none⟩ := by
        rcases hee with h | h <;> subst h <;> rcases hst with h | h | h <;> subst h <;>
          simp [scanner.next, state0]
      have hloop := foldl_digits State.stateE0 ps ds
      rcases hsg with h | h | h <;> subst h
      · have hn2 : scanner.next ⟨State.stateE, ps, tk ++ [e], none⟩ d
            = ⟨State.stateE0, ps, tk ++ [e] ++ [d], none⟩ := by
          simp [scanner.next, hd, hd43, hd45]
        simp only [List.cons_append, List.nil_append, List.foldl_cons, hn, hn2]
        rw [hloop _ rest (fun b hb => hds b (List.mem_cons_of_mem _ hb)) (Or.inr (Or.inr rfl))]
        simp
      · have hn1 : scanner.next ⟨State.stateE, ps, tk ++ [e], none⟩ 43
            = ⟨State.stateESign, ps, tk ++ [e] ++ [43], none⟩ := by
          simp [scanner.next]
        have hn2 : scanner.next ⟨State.stateESign, ps, tk ++ [e] ++ [43], none⟩ d
            = ⟨State.stateE0, ps, tk ++ [e] ++ [43] ++ [d], none⟩ := by
          simp [scanner.next, hd]
        simp only [List.cons_append, List.nil_append, List.foldl_cons, hn, hn1, hn2]
        rw [hloop _ rest (fun b hb => hds b (List.mem_cons_of_mem _ hb)) (Or.inr (Or.inr rfl))]
        simp
      · have hn1 : scanner.next ⟨State.stateE, ps, tk ++ [e], none⟩ 45
            = ⟨State.stateESign, ps, tk ++ [e] ++ [45], none⟩ := by
          simp [scanner.next]
        have hn2 : scanner.next ⟨State.stateESign, ps, tk ++ [e] ++ [45], none⟩ d
            = ⟨State.stateE0, ps, tk ++ [e] ++ [45] ++ [d], none⟩ := by
          simp [scanner.next, hd]
        simp only [List.cons_append, List.nil_append, List.foldl_cons, hn, hn1, hn2]
        rw [hloop _ rest (fun b hb => hds b (List.mem_cons_of_mem _ hb)) (Or.inr (Or.inr rfl))]
        simp

theorem number_scan (st : State) (ps : List Frame) (tk t : Bytes) (hst : ready st)
    (h : NumberLit t) :
    ∃ st3, (st3 = State.state0 ∨ st3 = State.state1 ∨ st3 = State.stateDot0
        ∨ st3 = State.stateE0) ∧ ∀ rest,
      List.foldl scanner.next ⟨st, ps, tk, none⟩ (t ++ rest)
        = List.foldl scanner.next ⟨st3, ps, t, none⟩ rest := by
  obtain ⟨sign, int, frac, exp, ht, hsign, hint, hfrac, hexp⟩ := h
  subst ht
  obtain ⟨st1, hst1, h1⟩ := number_int st ps tk sign int hst hsign hint
  obtain ⟨st2, hst2, h2⟩ := number_frac st1 ps (sign ++ int) frac hst1 hfrac
  obtain ⟨st3, hst3, h3⟩ := number_exp st2 ps (sign ++ int ++ frac) exp hst2 hexp
  refine ⟨st3, hst3, fun rest => ?_⟩
  have e : sign ++ int ++ frac ++ exp ++ rest = sign ++ int ++ (frac ++ (exp ++ rest)) := by
    simp
  rw [e, h1, h2, h3]

theorem number_end (st3 : State) (ps : List Frame) (t follow : Bytes)
    (hst : st3 = State.state0 ∨ st3 = State.state1 ∨ st3 = State.stateDot0
        ∨ st3 = State.stateE0)
    (hps : valueFrame ps) (hf : delimited follow) :
    List.foldl scanner.next ⟨st3, ps, t, none⟩ follow
      = List.foldl scanner.next (finished ps (JSON.number t)) follow := by
  obtain ⟨c, rest, hfo, hc⟩ := hf
  subst hfo
  have hn : scanner.next ⟨st3, ps, t, none⟩ c = endNumber ⟨st3, ps, t, none⟩ c := by
    rcases hc with h | h | h | h | h | h | h <;> subst h <;>
      rcases hst with h | h | h | h <;> subst h <;> simp [scanner.next, state0]
  rw [List.foldl_cons, hn]
  unfold endNumber
  simp only [complete_finished]
  cases ps with
  | nil =>
    have hv : (finished [] (JSON.number t)).value = some (JSON.number t) := rfl
    simp only [hv]
    rw [foldl_done _ _ hv, foldl_done _ _ hv]
  | cons f ps =>
    cases f with
    | parseObjectKey ms k => exact absurd hps (by simp [valueFrame])
    | parseObjectValue ms k =>
      have hv : (finished (Frame.parseObjectValue ms k :: ps) (JSON.number t)).value = none := rfl
      simp only [hv, List.foldl_cons]
      rfl
    | parseArrayValue xs =>
      have hv : (finished (Frame.parseArrayValue xs :: ps) (JSON.number t)).value = none := rfl
      simp only [hv, List.foldl_cons]
      rfl

theorem delimiter_comma : delimiter 44 := by unfold delimiter; decide

theorem delimiter_bracket : delimiter 93 := by unfold delimiter; decide

theorem delimiter_brace : delimiter 125 := by unfold delimiter; decide

theorem delimited_blank (ws rest : Bytes) (c : Nat) (hws : Blank ws) (hc : delimiter c) :
    delimited (ws ++ c :: rest) := by
  cases ws with
  | nil => exact ⟨c, rest, rfl, hc⟩
  | cons b ws =>
    refine ⟨b, ws ++ c :: rest, rfl, ?_⟩
    have := hws b (by simp)
    unfold delimiter
    tauto

theorem open_array (st : State) (ps : List Frame) (tk : Bytes) (hst : ready st)
    (hd : ps.length + 1 ≤ maxNestingDepth) :
    scanner.next ⟨st, ps, tk, none⟩ 91
      = ⟨State.stateBeginValueOrEmpty, Frame.parseArrayValue [] :: ps, tk, none⟩ := by
  rcases hst with h | h <;> subst h <;>
    simp [scanner.next, stateBeginValue, isSpace, scanner.pushParseState, hd]

theorem open_object (st : State) (ps : List Frame) (tk : Bytes) (hst : ready st)
    (hd : ps.length + 1 ≤ maxNestingDepth) :
    scanner.next ⟨st, ps, tk, none⟩ 123
      = ⟨State.stateBeginStringOrEmpty, Frame.parseObjectKey [] [] :: ps, tk, none⟩ := by
  rcases hst with h | h <;> subst h <;>
    simp [scanner.next, stateBeginValue, isSpace, scanner.pushParseState, hd]

theorem close_array (st : State) (ps : List Frame) (tk : Bytes) (xs : List JSON)
    (hst : st = State.stateBeginValueOrEmpty ∨ st = State.stateEndValue) :
    scanner.next ⟨st, Frame.parseArrayValue xs :: ps, tk, none⟩ 93
      = finished ps (JSON.array xs) := by
  rcases hst with h | h <;> subst h <;>
    simp [scanner.next, stateEndValue, isSpace, complete_finished]

theorem close_empty_object (ps : List Frame) (tk k0 : Bytes) (ms : List (Bytes × JSON)) :
    scanner.next ⟨State.stateBeginStringOrEmpty, Frame.parseObjectKey ms k0 :: ps, tk, none⟩ 125
      = finished ps (JSON.object ms) := by
  simp [scanner.next, stateEndValue, isSpace, complete_finished]

theorem close_object (ps : List Frame) (tk k0 : Bytes) (ms : List (Bytes × JSON)) :
    scanner.next ⟨State.stateEndValue, Frame.parseObjectValue ms k0 :: ps, tk, none⟩ 125
      = finished ps (JSON.object ms) := by
  simp [scanner.next, stateEndValue, isSpace, complete_finished]

theorem reads_derives (t : Bytes) (sem : Sem) (d : Nat) (h : Derives t sem d) :
    Reads t sem d := by
  induction h with
  | litNull d =>
    intro st ps tk follow hst _ _ _
    rw [List.foldl_append, reads_null st ps tk hst]
  | litTrue d =>
    intro st ps tk follow hst _ _ _
    rw [List.foldl_append, reads_true st ps tk hst]
  | litFalse d =>
    intro st ps tk follow hst _ _ _
    rw [List.foldl_append, reads_false st ps tk hst]
  | number t d hn =>
    intro st ps tk follow hst hps _ hf
    obtain ⟨st3, hst3, h3⟩ := number_scan st ps tk t hst hn
    rw [h3, number_end st3 ps t follow hst3 hps hf]
  | string raw s d hs =>
    intro st ps tk follow hst hps _ _
    rw [List.foldl_append, reads_string st ps tk raw s hst hps hs]
  | emptyArray ws d hws =>
    intro st ps tk follow hst _ hd _
    have hd1 : ps.length + 1 ≤ maxNestingDepth := by omega
    have e : 91 :: ws ++ [93] ++ follow = 91 :: (ws ++ 93 :: follow) := by simp
    rw [e, List.foldl_cons, open_array st ps tk hst hd1,
      foldl_blank _ _ _ ws _ hws (Or.inr (Or.inl rfl)), List.foldl_cons,
      close_array _ ps tk [] (Or.inl rfl)]
  | array t xs d _ ih =>
    intro st ps tk follow hst _ hd _
    have hd1 : ps.length + 1 ≤ maxNestingDepth := by omega
    have hd2 : ps.length + 1 + d ≤ maxNestingDepth := by omega
    have e : 91 :: t ++ [93] ++ follow = 91 :: (t ++ 93 :: follow) := by simp
    rw [e, List.foldl_cons, open_array st ps tk hst hd1]
    have := ih State.stateBeginValueOrEmpty ps tk follow [] (Or.inr rfl) hd2
    rw [this, List.nil_append]
  | emptyObject ws d hws =>
    intro st ps tk follow hst _ hd _
    have hd1 : ps.length + 1 ≤ maxNestingDepth := by omega
    have e : 123 :: ws ++ [125] ++ follow = 123 :: (ws ++ 125 :: follow) := by simp
    rw [e, List.foldl_cons, open_object st ps tk hst hd1,
      foldl_blank _ _ _ ws _ hws (Or.inr (Or.inr (Or.inl rfl))),
      List.foldl_cons, close_empty_object ps tk [] []]
  | object t ms d _ ih =>
    intro st ps tk follow hst _ hd _
    have hd1 : ps.length + 1 ≤ maxNestingDepth := by omega
    have hd2 : ps.length + 1 + d ≤ maxNestingDepth := by omega
    have e : 123 :: t ++ [125] ++ follow = 123 :: (t ++ 125 :: follow) := by simp
    rw [e, List.foldl_cons, open_object st ps tk hst hd1]
    have := ih State.stateBeginStringOrEmpty ps tk follow [] [] (Or.inl rfl) hd2
    rw [this, List.nil_append]
  | element ws1 t ws2 x d hws1 hws2 _ ih =>
    intro st ps tk rest ys hst hd
    have hready : st = State.stateBeginValue ∨ st = State.stateBeginValueOrEmpty
        ∨ st = State.stateBeginStringOrEmpty ∨ st = State.stateBeginString
        ∨ (st = State.stateEndValue ∧ Frame.parseArrayValue ys :: ps ≠ []) := by
      rcases hst with h | h
      · exact Or.inl h
      · exact Or.inr (Or.inl h)
    have e : ws1 ++ t ++ ws2 ++ 93 :: rest = ws1 ++ (t ++ (ws2 ++ 93 :: rest)) := by simp
    rw [e, foldl_blank _ _ _ ws1 _ hws1 hready,
      ih st (Frame.parseArrayValue ys :: ps) tk (ws2 ++ 93 :: rest) hst trivial
        hd
        (delimited_blank ws2 rest 93 hws2 delimiter_bracket)]
    have hfin : finished (Frame.parseArrayValue ys :: ps) x
        = ⟨State.stateEndValue, Frame.parseArrayValue (ys ++ [x]) :: ps, [], none⟩ := rfl
    rw [hfin, foldl_blank _ _ _ ws2 _ hws2 (Or.inr (Or.inr (Or.inr (Or.inr ⟨rfl, by simp⟩)))),
      List.foldl_cons, close_array _ ps [] _ (Or.inr rfl)]
  | elements ws1 t ws2 more x xs d hws1 hws2 _ _ ih1 ih2 =>
    intro st ps tk rest ys hst hd
    have hready : st = State.stateBeginValue ∨ st = State.stateBeginValueOrEmpty
        ∨ st = State.stateBeginStringOrEmpty ∨ st = State.stateBeginString
        ∨ (st = State.stateEndValue ∧ Frame.parseArrayValue ys :: ps ≠ []) := by
      rcases hst with h | h
      · exact Or.inl h
      · exact Or.inr (Or.inl h)
    have e : ws1 ++ t ++ ws2 ++ 44 :: more ++ 93 :: rest
        = ws1 ++ (t ++ (ws2 ++ 44 :: (more ++ 93 :: rest))) := by simp
    rw [e, foldl_blank _ _ _ ws1 _ hws1 hready,
      ih1 st (Frame.parseArrayValue ys :: ps) tk (ws2 ++ 44 :: (more ++ 93 :: rest)) hst trivial
        hd
        (delimited_blank ws2 _ 44 hws2 delimiter_comma)]
    have hfin : finished (Frame.parseArrayValue ys :: ps) x
        = ⟨State.stateEndValue, Frame.parseArrayValue (ys ++ [x]) :: ps, [], none⟩ := rfl
    have hcomma : scanner.next
        ⟨State.stateEndValue, Frame.parseArrayValue (ys ++ [x]) :: ps, [], none⟩ 44
        = ⟨State.stateBeginValue, Frame.parseArrayValue (ys ++ [x]) :: ps, [], none⟩ := by
      simp [scanner.next, stateEndValue, isSpace]
    rw [hfin, foldl_blank _ _ _ ws2 _ hws2 (Or.inr (Or.inr (Or.inr (Or.inr ⟨rfl, by simp⟩)))),
      List.foldl_cons, hcomma, ih2 State.stateBeginValue ps [] rest (ys ++ [x]) (Or.inl rfl) hd]
    simp
  | member ws1 raw key ws2 ws3 t ws4 x d hws1 hraw hws2 hws3 hws4 _ ih =>
    intro st ps tk rest k0 ms0 hst hd
    have hready : st = State.stateBeginValue ∨ st = State.stateBeginValueOrEmpty
        ∨ st = State.stateBeginStringOrEmpty ∨ st = State.stateBeginString
        ∨ (st = State.stateEndValue ∧ Frame.parseObjectKey ms0 k0 :: ps ≠ []) := by
      rcases hst with h | h
      · exact Or.inr (Or.inr (Or.inl h))
      · exact Or.inr (Or.inr (Or.inr (Or.inl h)))
    have e : ws1 ++ 34 :: raw ++ 34 :: ws2 ++ 58 :: ws3 ++ t ++ ws4 ++ 125 :: rest
        = ws1 ++ (34 :: raw ++ 34 :: (ws2 ++ 58 :: (ws3 ++ (t ++ (ws4 ++ 125 :: rest))))) := by
      simp
    have hcolon : scanner.next
        ⟨State.stateEndValue, Frame.parseObjectKey ms0 key :: ps, [], none⟩ 58
        = ⟨State.stateBeginValue, Frame.parseObjectValue ms0 key :: ps, [], none⟩ := by
      simp [scanner.next, stateEndValue, isSpace]
    have hfin : finished (Frame.parseObjectValue ms0 key :: ps) x
        = ⟨State.stateEndValue, Frame.parseObjectValue (ms0 ++ [(key, x)]) key :: ps, [], none⟩ :=
      rfl
    rw [e, foldl_blank _ _ _ ws1 _ hws1 hready, reads_key st ps tk raw key k0 _ ms0 hst hraw,
      foldl_blank _ _ _ ws2 _ hws2 (Or.inr (Or.inr (Or.inr (Or.inr ⟨rfl, by simp⟩)))),
      List.foldl_cons, hcolon, foldl_blank _ _ _ ws3 _ hws3 (Or.inl rfl),
      ih State.stateBeginValue (Frame.parseObjectValue ms0 key :: ps) [] (ws4 ++ 125 :: rest)
        (Or.inl rfl) trivial hd
        (delimited_blank ws4 rest 125 hws4 delimiter_brace),
      hfin, foldl_blank _ _ _ ws4 _ hws4 (Or.inr (Or.inr (Or.inr (Or.inr ⟨rfl, by simp⟩)))),
      List.foldl_cons, close_object ps [] key _]
  | members ws1 raw key ws2 ws3 t ws4 more x ms d hws1 hraw hws2 hws3 hws4 _ _ ih1 ih2 =>
    intro st ps tk rest k0 ms0 hst hd
    have hready : st = State.stateBeginValue ∨ st = State.stateBeginValueOrEmpty
        ∨ st = State.stateBeginStringOrEmpty ∨ st = State.stateBeginString
        ∨ (st = State.stateEndValue ∧ Frame.parseObjectKey ms0 k0 :: ps ≠ []) := by
      rcases hst with h | h
      · exact Or.inr (Or.inr (Or.inl h))
      · exact Or.inr (Or.inr (Or.inr (Or.inl h)))
    have e : ws1 ++ 34 :: raw ++ 34 :: ws2 ++ 58 :: ws3 ++ t ++ ws4 ++ 44 :: more ++ 125 :: rest
        = ws1 ++ (34 :: raw ++ 34 :: (ws2 ++ 58 :: (ws3 ++ (t ++ (ws4 ++ 44 ::
            (more ++ 125 :: rest)))))) := by
      simp
    have hcolon : scanner.next
        ⟨State.stateEndValue, Frame.parseObjectKey ms0 key :: ps, [], none⟩ 58
        = ⟨State.stateBeginValue, Frame.parseObjectValue ms0 key :: ps, [], none⟩ := by
      simp [scanner.next, stateEndValue, isSpace]
    have hfin : finished (Frame.parseObjectValue ms0 key :: ps) x
        = ⟨State.stateEndValue, Frame.parseObjectValue (ms0 ++ [(key, x)]) key :: ps, [], none⟩ :=
      rfl
    have hcomma : scanner.next
        ⟨State.stateEndValue, Frame.parseObjectValue (ms0 ++ [(key, x)]) key :: ps, [], none⟩ 44
        = ⟨State.stateBeginString, Frame.parseObjectKey (ms0 ++ [(key, x)]) key :: ps, [],
            none⟩ := by
      simp [scanner.next, stateEndValue, isSpace]
    rw [e, foldl_blank _ _ _ ws1 _ hws1 hready, reads_key st ps tk raw key k0 _ ms0 hst hraw,
      foldl_blank _ _ _ ws2 _ hws2 (Or.inr (Or.inr (Or.inr (Or.inr ⟨rfl, by simp⟩)))),
      List.foldl_cons, hcolon, foldl_blank _ _ _ ws3 _ hws3 (Or.inl rfl),
      ih1 State.stateBeginValue (Frame.parseObjectValue ms0 key :: ps) []
        (ws4 ++ 44 :: (more ++ 125 :: rest))
        (Or.inl rfl) trivial hd
        (delimited_blank ws4 _ 44 hws4 delimiter_comma),
      hfin, foldl_blank _ _ _ ws4 _ hws4 (Or.inr (Or.inr (Or.inr (Or.inr ⟨rfl, by simp⟩)))),
      List.foldl_cons, hcomma,
      ih2 State.stateBeginString ps [] rest key (ms0 ++ [(key, x)]) (Or.inr rfl) hd]
    simp

theorem next_of_error (s : scanner) (c : Nat) (hv : s.value = none)
    (he : s.step = State.stateError) : s.next c = s := by
  unfold scanner.next
  rw [hv]
  simp only
  rw [he]

theorem readValue_of_run (body : Bytes) (x : JSON)
    (h : (List.foldl scanner.next scanner.reset (body ++ [32])).value = some x) :
    readValue body = Except.ok x := by
  have e : List.foldl scanner.next scanner.reset (body ++ [32])
      = scanner.next (List.foldl scanner.next scanner.reset body) 32 := by
    rw [List.foldl_append]; rfl
  rw [e] at h
  unfold readValue
  generalize List.foldl scanner.next scanner.reset body = s at h
  simp only
  cases hs : s.value with
  | some y =>
    have hstay : s.next 32 = s := foldl_done s y hs [32]
    rw [hstay, hs] at h
    cases h
    rfl
  | none =>
    simp only
    by_cases herr : s.step = State.stateError
    · rw [next_of_error s 32 hs herr, hs] at h
      cases h
    · rw [if_neg herr, h]

theorem readValue_of_text (body : Bytes) (x : JSON) (d : Nat) (h : JSONText body x d)
    (hd : d ≤ maxNestingDepth) : readValue body = Except.ok x := by
  obtain ⟨ws1, t, ws2, hbody, hws1, hws2, hder⟩ := h
  apply readValue_of_run
  rw [hbody]
  have e2 : ws1 ++ t ++ ws2 ++ [32] = ws1 ++ (t ++ (ws2 ++ 32 :: [])) := by simp
  have hread := reads_derives t (Sem.value x) d hder State.stateBeginValue [] [] (ws2 ++ 32 :: [])
    (Or.inl rfl) trivial (by simpa using hd)
    (delimited_blank ws2 [] 32 hws2 (by unfold delimiter; decide))
  have hv : (finished [] x).value = some x := rfl
  rw [e2]
  unfold scanner.reset
  rw [foldl_blank _ _ _ ws1 _ hws1 (Or.inl rfl), hread, foldl_done _ _ hv]
  exact hv

theorem foldl_error (ps : List Frame) (tk bs : Bytes) :
    List.foldl scanner.next ⟨State.stateError, ps, tk, none⟩ bs
      = ⟨State.stateError, ps, tk, none⟩ := by
  induction bs with
  | nil => rfl
  | cons c bs ih =>
    have : scanner.next ⟨State.stateError, ps, tk, none⟩ c = ⟨State.stateError, ps, tk, none⟩ := by
      simp [scanner.next]
    rw [List.foldl_cons, this, ih]

theorem isSpace_of_blank (c : Nat) (h : c = 32 ∨ c = 9 ∨ c = 10 ∨ c = 13) : isSpace c = true := by
  rcases h with h | h | h | h <;> subst h <;> rfl

theorem readValue_of_notJSON (body : Bytes) (h : NotJSON body) :
    ∃ e, readValue body = Except.error e := by
  rcases h with hblank | ⟨ws, c, rest, hbody, hws, hnb, hnv⟩
  · have hrun : List.foldl scanner.next scanner.reset body = scanner.reset := by
      have := foldl_blank State.stateBeginValue [] [] body [] hblank (Or.inl rfl)
      simpa [scanner.reset] using this
    have hall : body.all isSpace = true := by
      rw [List.all_eq_true]
      intro c hc
      exact isSpace_of_blank c (hblank c hc)
    refine ⟨JSONError.EOF, ?_⟩
    unfold readValue
    simp only [hrun]
    simp [scanner.reset, scanner.next, stateBeginValue, isSpace, hall]
  · have hstep : scanner.next ⟨State.stateBeginValue, [], [], none⟩ c
        = ⟨State.stateError, [], [], none⟩ := by
      unfold beginsValue at hnv
      have hsp : isSpace c = false := by
        have : c ≠ 32 ∧ c ≠ 9 ∧ c ≠ 13 ∧ c ≠ 10 := by omega
        simp [isSpace, this]
      have e1 : c ≠ 123 := by omega
      have e2 : c ≠ 91 := by omega
      have e3 : c ≠ 34 := by omega
      have e4 : c ≠ 45 := by omega
      have e5 : c ≠ 48 := by omega
      have e6 : c ≠ 116 := by omega
      have e7 : c ≠ 102 := by omega
      have e8 : c ≠ 110 := by omega
      have e9 : ¬ (49 ≤ c ∧ c ≤ 57) := by omega
      simp [scanner.next, stateBeginValue, hsp, e1, e2, e3, e4, e5, e6, e7, e8, e9,
        scanner.error]
    have hrun : List.foldl scanner.next scanner.reset body = ⟨State.stateError, [], [], none⟩ := by
      rw [hbody]
      unfold scanner.reset
      rw [foldl_blank _ _ _ ws _ hws (Or.inl rfl), List.foldl_cons, hstep, foldl_error]
    refine ⟨JSONError.SyntaxError, ?_⟩
    unfold readValue
    simp only [hrun]
    simp

theorem Blank.nil : Blank [] := fun _ h => absurd h (List.not_mem_nil _)

theorem StringLit.ascii (raw : Bytes)
    (h : ∀ c ∈ raw, 0x20 ≤ c ∧ c < 0x80 ∧ c ≠ 0x22 ∧ c ≠ 0x5C) : StringLit raw raw := by
  induction raw with
  | nil => exact StringLit.nil
  | cons c raw ih =>
    obtain ⟨h1, h2, h3, h4⟩ := h c (by simp)
    have he : EncodeRune c = [c] := by simp [EncodeRune, h2]
    have := StringLit.char c raw raw (Or.inl (by omega)) h1 h3 h4
      (ih (fun b hb => h b (List.mem_cons_of_mem _ hb)))
    rw [he] at this
    exact this

/-! ## The version in the body -/

theorem getCurrentVersion_decode_error_of (get : Exchange) (resp : Response) (w : World)
    (hresp : get.result = Except.ok resp) (hstatus : resp.StatusCode = 200) :
    (∃ e, (getCurrentVersion get w).1 = Except.error (Error.versionDecode e))
      ↔ (Decode resp.Body ⟨[]⟩).2 ≠ none := by
  rw [getCurrentVersion_of_decode get resp w hresp hstatus]
  cases (Decode resp.Body ⟨[]⟩).2 with
  | some err => simp
  | none =>
    simp only [ne_eq, not_true_eq_false, iff_false, not_exists]
    intro e
    split <;> simp

theorem Decode_of_text (body : Bytes) (x : JSON) (d : Nat) (h : JSONText body x d)
    (hd : d ≤ maxNestingDepth) (v : VersionResponse) : Decode body v = unmarshal x v := by
  unfold Decode
  rw [readValue_of_text body x d h hd]

theorem text_version_string :
    JSONText (utf8 "\x7b\"version\":\"5.2.1\"\x7d")
      (JSON.object [(utf8 "version", JSON.string (utf8 "5.2.1"))]) 1 :=
  ⟨[], utf8 "\x7b\"version\":\"5.2.1\"\x7d", [], rfl, Blank.nil, Blank.nil,
    Derives.object _ _ 0
      (Derives.member [] (utf8 "version") (utf8 "version") [] [] _ [] _ 0
        Blank.nil (StringLit.ascii _ (by decide)) Blank.nil Blank.nil Blank.nil
        (Derives.string (utf8 "5.2.1") (utf8 "5.2.1") 0 (StringLit.ascii _ (by decide))))⟩

theorem text_two_versions :
    JSONText (utf8 "\x7b\"version\":\"1.0\",\"Version\":\"2.0\"\x7d")
      (JSON.object [(utf8 "version", JSON.string (utf8 "1.0")),
        (utf8 "Version", JSON.string (utf8 "2.0"))]) 1 :=
  ⟨[], utf8 "\x7b\"version\":\"1.0\",\"Version\":\"2.0\"\x7d", [], rfl, Blank.nil, Blank.nil,
    Derives.object _ _ 0
      (Derives.members [] (utf8 "version") (utf8 "version") [] [] _ [] _ _ _ 0
        Blank.nil (StringLit.ascii _ (by decide)) Blank.nil Blank.nil Blank.nil
        (Derives.string (utf8 "1.0") (utf8 "1.0") 0 (StringLit.ascii _ (by decide)))
        (Derives.member [] (utf8 "Version") (utf8 "Version") [] [] _ [] _ 0
          Blank.nil (StringLit.ascii _ (by decide)) Blank.nil Blank.nil Blank.nil
          (Derives.string (utf8 "2.0") (utf8 "2.0") 0 (StringLit.ascii _ (by decide)))))⟩

theorem text_version_number :
    JSONText (utf8 "\x7b\"version\": 5\x7d")
      (JSON.object [(utf8 "version", JSON.number [53])]) 1 :=
  ⟨[], utf8 "\x7b\"version\": 5\x7d", [], rfl, Blank.nil, Blank.nil,
    Derives.object _ _ 0
      (Derives.member [] (utf8 "version") (utf8 "version") [] [32] _ [] _ 0
        Blank.nil (StringLit.ascii _ (by decide)) Blank.nil (by unfold Blank; decide) Blank.nil
        (Derives.number [53] 0 ⟨[], [53], [], [], rfl, Or.inl rfl,
          Or.inr ⟨53, [], rfl, by decide, by decide, by unfold Digits; decide⟩,
          Or.inl rfl, Or.inl rfl⟩))⟩

theorem text_empty_object : JSONText (utf8 "\x7b\x7d") (JSON.object []) 1 :=
  ⟨[], utf8 "\x7b\x7d", [], rfl, Blank.nil, Blank.nil, Derives.emptyObject [] 0 Blank.nil⟩

/-- C2, as the code has it: a response with status 200 whose body is JSON text (RFC
8259, in UTF-8, without an escape of an unpaired surrogate) nested at most 10000 deep,
an object with a member `version` that is a non-empty string and with no other member
whose name selects the field `version` (the same name again, or the name in another
letter case), makes getCurrentVersion return exactly the string that member stands
for. -/
theorem getCurrentVersion_returns_version (get : Exchange) (body : Bytes)
    (members : List (Bytes × JSON)) (v : Bytes) (d : Nat) (w : World)
    (hresp : get.result = Except.ok ⟨200, body⟩)
    (htext : JSONText body (JSON.object members) d)
    (hdepth : d ≤ 10000)
    (honly : members.filter (fun m => matchesField m.1) = [(utf8 "version", JSON.string v)])
    (hv : v ≠ []) :
    (getCurrentVersion get w).1 = Except.ok v := by
  have hd : Decode body ⟨[]⟩ = (⟨v⟩, none) := by
    rw [Decode_of_text body _ d htext hdepth]
    simp only [unmarshal]
    rw [decodeObject_filter, honly]
    have hm : matchesField (utf8 "version") = true := by decide
    simp [decodeObject, hm, storeString, saveError]
  rw [getCurrentVersion_of_decode get ⟨200, body⟩ w hresp rfl]
  simp only [hd]
  rw [if_neg hv]

theorem getCurrentVersion_returns_version_witness :
    (getCurrentVersion (Exchange.answer 200 (utf8 "\x7b\"version\":\"5.2.1\"\x7d")) ⟨⟨[], []⟩, []⟩).1
      = Except.ok (utf8 "5.2.1") :=
  getCurrentVersion_returns_version
    (Exchange.answer 200 (utf8 "\x7b\"version\":\"5.2.1\"\x7d"))
    (utf8 "\x7b\"version\":\"5.2.1\"\x7d")
    [(utf8 "version", JSON.string (utf8 "5.2.1"))] (utf8 "5.2.1") 1 ⟨⟨[], []⟩, []⟩
    rfl text_version_string (by decide) rfl (by decide)

/-- C2 as stated fails: the body below is JSON text, an object whose member `version`
is the string `1.0`; its member `Version` is stored into the same field after it, and
getCurrentVersion returns `2.0`. -/
theorem getCurrentVersion_returns_later_member :
    JSONText (utf8 "\x7b\"version\":\"1.0\",\"Version\":\"2.0\"\x7d")
        (JSON.object [(utf8 "version", JSON.string (utf8 "1.0")),
          (utf8 "Version", JSON.string (utf8 "2.0"))]) 1
      ∧ (getCurrentVersion
          (Exchange.answer 200 (utf8 "\x7b\"version\":\"1.0\",\"Version\":\"2.0\"\x7d"))
          ⟨⟨[], []⟩, []⟩).1 = Except.ok (utf8 "2.0")
      ∧ utf8 "2.0" ≠ utf8 "1.0" :=
  ⟨text_two_versions, rfl, by decide⟩

/-- C5, as the code has it, for a response with status 200. A body that is not JSON at
all (empty or blank, or with a first byte after the leading whitespace that cannot
begin a JSON value) makes getCurrentVersion fail with the decode error. A body that is
JSON text (RFC 8259, in UTF-8, without an escape of an unpaired surrogate) nested at
most 10000 deep makes it fail with the decode error exactly when the value is neither
an object nor null, or is an object with a member whose name selects the field
`version` (that name in any letter case) and whose value is neither a string nor null.
Such a body that is an object with no member selecting the field does not give the
decode error: getCurrentVersion fails with the empty-version error. -/
theorem getCurrentVersion_decode_error (get : Exchange) (resp : Response) (w : World)
    (hresp : get.result = Except.ok resp) (hstatus : resp.StatusCode = 200) :
    (NotJSON resp.Body →
        ∃ e, (getCurrentVersion get w).1 = Except.error (Error.versionDecode e))
      ∧ (∀ x d, JSONText resp.Body x d → d ≤ 10000 →
          ((∃ e, (getCurrentVersion get w).1 = Except.error (Error.versionDecode e))
            ↔ ((x.isObject = false ∧ x.isNull = false)
              ∨ ∃ ms key y, x = JSON.object ms ∧ (key, y) ∈ ms ∧ matchesField key = true
                  ∧ y.isString = false ∧ y.isNull = false)))
      ∧ (∀ ms d, JSONText resp.Body (JSON.object ms) d → d ≤ 10000 →
          (∀ key y, (key, y) ∈ ms → matchesField key = false) →
          (getCurrentVersion get w).1 = Except.error Error.versionEmpty) := by
  refine ⟨?_, ?_, ?_⟩
  · intro hnot
    rw [getCurrentVersion_decode_error_of get resp w hresp hstatus, decode_error_iff]
    exact Or.inl (readValue_of_notJSON resp.Body hnot)
  · intro x d htext hdepth
    have hread := readValue_of_text resp.Body x d htext hdepth
    rw [getCurrentVersion_decode_error_of get resp w hresp hstatus, decode_error_iff, hread]
    constructor
    · rintro (⟨e, he⟩ | ⟨y, hy, h1, h2⟩ | ⟨ms, key, y, hy, hmem, hk, h1, h2⟩)
      · cases he
      · injection hy with hy
        subst hy
        exact Or.inl ⟨h1, h2⟩
      · injection hy with hy
        exact Or.inr ⟨ms, key, y, hy, hmem, hk, h1, h2⟩
    · rintro (⟨h1, h2⟩ | ⟨ms, key, y, hx, hmem, hk, h1, h2⟩)
      · exact Or.inr (Or.inl ⟨x, rfl, h1, h2⟩)
      · exact Or.inr (Or.inr ⟨ms, key, y, by rw [hx], hmem, hk, h1, h2⟩)
  · intro ms d htext hdepth hnone
    have hfilter : ms.filter (fun m => matchesField m.1) = [] := by
      rw [List.filter_eq_nil_iff]
      intro m hm
      obtain ⟨key, y⟩ := m
      simp [hnone key y hm]
    have hd : Decode resp.Body ⟨[]⟩ = (⟨[]⟩, none) := by
      rw [Decode_of_text resp.Body _ d htext hdepth]
      simp only [unmarshal]
      rw [decodeObject_filter, hfilter]
      rfl
    rw [getCurrentVersion_of_decode get resp w hresp hstatus]
    simp only [hd]
    rfl

theorem getCurrentVersion_decode_error_witness :
    ∃ e, (getCurrentVersion (Exchange.answer 200 (utf8 "\x7b\"version\": 5\x7d")) ⟨⟨[], []⟩, []⟩).1
      = Except.error (Error.versionDecode e) :=
  ((getCurrentVersion_decode_error (Exchange.answer 200 (utf8 "\x7b\"version\": 5\x7d"))
      ⟨200, utf8 "\x7b\"version\": 5\x7d"⟩ ⟨⟨[], []⟩, []⟩ rfl rfl).2.1
    (JSON.object [(utf8 "version", JSON.number [53])]) 1 text_version_number (by decide)).mpr
    (Or.inr ⟨[(utf8 "version", JSON.number [53])], utf8 "version", JSON.number [53],
      rfl, by simp, by decide, rfl, rfl⟩)

/-- C5 as stated fails: the body `\x7b\x7d` is JSON text, an object with no member
`version`; it decodes without error to the empty version, and getCurrentVersion fails
with the empty-version error, not with the decode error. -/
theorem getCurrentVersion_missing_member_not_decode_error :
    JSONText (utf8 "\x7b\x7d") (JSON.object []) 1
      ∧ (getCurrentVersion (Exchange.answer 200 (utf8 "\x7b\x7d")) ⟨⟨[], []⟩, []⟩).1
          = Except.error Error.versionEmpty
      ∧ ¬ ∃ e, (getCurrentVersion (Exchange.answer 200 (utf8 "\x7b\x7d")) ⟨⟨[], []⟩, []⟩).1
          = Except.error (Error.versionDecode e) :=
  ⟨text_empty_object, rfl, by
    rintro ⟨e, he⟩
    have h : (getCurrentVersion (Exchange.answer 200 (utf8 "\x7b\x7d")) ⟨⟨[], []⟩, []⟩).1
        = Except.error Error.versionEmpty := rfl
    rw [h] at he
    cases he⟩

/-! ## The download URL and the destination path -/

theorem splitSep_of_not_mem (xs : Bytes) (h : 47 ∉ xs) : splitSep xs = [xs] := by
  induction xs with
  | nil => rfl
  | cons c xs ih =>
    have hc : c ≠ 47 := fun hc => h (by simp [hc])
    have hxs : 47 ∉ xs := fun hm => h (List.mem_cons_of_mem _ hm)
    simp only [splitSep, if_neg hc, ih hxs]

theorem splitSep_append (xs ys : Bytes) (h : 47 ∉ xs) :
    splitSep (xs ++ 47 :: ys) = xs :: splitSep ys := by
  induction xs with
  | nil => simp [splitSep]
  | cons c xs ih =>
    have hc : c ≠ 47 := fun hc => h (by simp [hc])
    have hxs : 47 ∉ xs := fun hm => h (List.mem_cons_of_mem _ hm)
    have ih2 : splitSep (xs.append (47 :: ys)) = xs :: splitSep ys := ih hxs
    simp only [List.cons_append, splitSep, if_neg hc]
    rw [ih2]

theorem Join_downloadDir (name : Bytes) (h47 : 47 ∉ name) (hne : name ≠ [])
    (hdot : name ≠ [46]) (hdotdot : name ≠ [46, 46]) :
    Join [downloadDir, name] = downloadDir ++ 47 :: name := by
  have hdir : downloadDir = [100, 111, 119, 110, 108, 111, 97, 100, 115] := by decide
  have hsplit : splitSep (downloadDir ++ 47 :: name) = [downloadDir, name] := by
    rw [splitSep_append _ _ (by rw [hdir]; decide), splitSep_of_not_mem _ h47]
  have hjoin : joinSep [downloadDir, name] = downloadDir ++ 47 :: name := rfl
  have hclean : Clean (downloadDir ++ 47 :: name) = downloadDir ++ 47 :: name := by
    have hstep : (splitSep (downloadDir ++ 47 :: name)).foldl (cleanStep false) []
        = [name, downloadDir] := by
      rw [hsplit]
      have h1 : cleanStep false [] downloadDir = [downloadDir] := by rw [hdir]; decide
      have h2 : cleanStep false [downloadDir] name = [name, downloadDir] := by
        simp [cleanStep, hne, hdot, hdotdot]
      simp only [List.foldl, h1, h2]
    have hhead : downloadDir ++ 47 :: name = 100 :: ([111, 119, 110, 108, 111, 97, 100, 115]
        ++ 47 :: name) := by rw [hdir]; rfl
    conv_lhs => rw [hhead]
    unfold Clean
    simp only
    rw [← hhead]
    have hdec : decide (100 = 47) = false := by decide
    rw [hdec, hstep]
    simp [joinSep]
  have hdrop : [downloadDir, name].dropWhile (fun e => e = []) = [downloadDir, name] := by
    rw [hdir]; rfl
  unfold Join
  rw [hdrop]
  simp only
  rw [hjoin, hclean]

theorem filename_path (v : Bytes) (h47 : 47 ∉ v) :
    Join [downloadDir, filename v] = utf8 "downloads/dpd_distribution_HAZ_" ++ v ++ utf8 ".zip" := by
  have hpre : utf8 "dpd_distribution_HAZ_"
      = [100, 112, 100, 95, 100, 105, 115, 116, 114, 105, 98, 117, 116, 105, 111, 110, 95, 72,
          65, 90, 95] := by decide
  have hzip : utf8 ".zip" = [46, 122, 105, 112] := by decide
  have hall : utf8 "downloads/dpd_distribution_HAZ_"
      = downloadDir ++ 47 :: utf8 "dpd_distribution_HAZ_" := by decide
  rw [Join_downloadDir]
  · rw [hall]; simp [filename]
  · simp only [filename, hpre, hzip, List.mem_append, not_or]
    exact ⟨⟨by decide, h47⟩, by decide⟩
  · simp [filename, hpre]
  · simp [filename, hpre]
  · simp [filename, hpre]

theorem downloadFile_trace_mono (a : Attempt) (url version : Bytes) (w : World) (e : Event)
    (he : e ∈ w.trace) : e ∈ (downloadFile a url version w).2.trace := by
  obtain ⟨extra, h, _⟩ := downloadFile_trace a url version w
  rw [h]
  exact List.mem_append_left _ he

theorem retryLoop_trace_mono (env : Env) (url version : Bytes) (fuel : Nat) :
    ∀ (i : Nat) (w : World) (e : Event), e ∈ w.trace →
      e ∈ (retryLoop env url version fuel i w).trace := by
  induction fuel with
  | zero => intro i w e he; exact he
  | succ fuel ih =>
    intro i w e he
    have hcall : e ∈ (w.log (Event.call url version)).trace := by
      rw [World.log_trace]; exact List.mem_append_left _ he
    by_cases hi : i < maxRetries
    · cases hr : (downloadFile (env.attempt i) url version (w.log (Event.call url version))).1 with
      | none =>
        rw [retryLoop_success env url version fuel i w hi hr]
        exact downloadFile_trace_mono _ _ _ _ _ hcall
      | some err =>
        rw [retryLoop_failure env url version fuel i w err hi hr]
        have hd := downloadFile_trace_mono (env.attempt i) url version _ e hcall
        split
        · apply ih
          simp only [World.log_trace, List.mem_append]
          exact Or.inl (Or.inl (Or.inl hd))
        · apply ih
          simp only [World.log_trace, List.mem_append]
          exact Or.inl hd
    · rw [retryLoop_exhausted env url version fuel i w hi, World.log_trace]
      exact List.mem_append_left _ he

theorem retryLoop_events (env : Env) (url version : Bytes) (fuel : Nat) :
    ∀ (i : Nat) (w : World) (e : Event), e ∈ (retryLoop env url version fuel i w).trace →
      e ∈ w.trace ∨ e = Event.call url version ∨ e = Event.request url
        ∨ (∃ target, e = Event.redirect target)
        ∨ e = Event.mkdirAll downloadDir
        ∨ e = Event.create (Join [downloadDir, filename version])
        ∨ (∃ m, e = Event.print m) ∨ e = Event.sleep 5 := by
  induction fuel with
  | zero => intro i w e he; exact Or.inl he
  | succ fuel ih =>
    intro i w e he
    have hdl : ∀ e, e ∈ (downloadFile (env.attempt i) url version
        (w.log (Event.call url version))).2.trace →
        e ∈ w.trace ∨ e = Event.call url version ∨ e = Event.request url
          ∨ (∃ target, e = Event.redirect target)
          ∨ e = Event.mkdirAll downloadDir
          ∨ e = Event.create (Join [downloadDir, filename version])
          ∨ (∃ m, e = Event.print m) ∨ e = Event.sleep 5 := by
      intro e he
      obtain ⟨extra, h, hex⟩ := downloadFile_trace (env.attempt i) url version
        (w.log (Event.call url version))
      rw [h, World.log_trace] at he
      simp only [List.mem_append, List.mem_singleton] at he
      rcases he with (he | he) | he
      · left; exact he
      · subst he; simp
      · rcases hex e he with h | h | ⟨u, h⟩ | h | h | h <;> subst h <;> simp
    by_cases hi : i < maxRetries
    · cases hr : (downloadFile (env.attempt i) url version (w.log (Event.call url version))).1 with
      | none =>
        rw [retryLoop_success env url version fuel i w hi hr] at he
        exact hdl e he
      | some err =>
        rw [retryLoop_failure env url version fuel i w err hi hr] at he
        split at he
        · rcases ih _ _ e he with h | h
          · simp only [World.log_trace, List.mem_append, List.mem_singleton] at h
            rcases h with ((h | h) | h) | h
            · exact hdl e h
            · subst h; simp
            · subst h; simp
            · subst h; simp
          · right; exact h
        · rcases ih _ _ e he with h | h
          · simp only [World.log_trace, List.mem_append, List.mem_singleton] at h
            rcases h with h | h
            · exact hdl e h
            · subst h; simp
          · right; exact h
    · rw [retryLoop_exhausted env url version fuel i w hi, World.log_trace] at he
      simp only [List.mem_append, List.mem_singleton] at he
      rcases he with he | he
      · left; exact he
      · subst he; simp

theorem retryLoop_first_call (env : Env) (url version : Bytes) (fuel : Nat) (w : World) :
    Event.call url version ∈ (retryLoop env url version (fuel + 1) 0 w).trace := by
  have hcall : Event.call url version ∈ (w.log (Event.call url version)).trace := by
    rw [World.log_trace]; simp
  have hi : 0 < maxRetries := by decide
  cases hr : (downloadFile (env.attempt 0) url version (w.log (Event.call url version))).1 with
  | none =>
    rw [retryLoop_success env url version fuel 0 w hi hr]
    exact downloadFile_trace_mono _ _ _ _ _ hcall
  | some err =>
    rw [retryLoop_failure env url version fuel 0 w err hi hr]
    have hd := downloadFile_trace_mono (env.attempt 0) url version _ _ hcall
    split
    · apply retryLoop_trace_mono
      simp only [World.log_trace, List.mem_append]
      exact Or.inl (Or.inl (Or.inl hd))
    · apply retryLoop_trace_mono
      simp only [World.log_trace, List.mem_append]
      exact Or.inl hd

/-- C6, as the code has it: after the version `v` is resolved, main calls downloadFile
with the URL that is baseURL followed by `?version=` and `v`, and with `v` itself, in
every call, and sends no request to another URL but baseURL; the destination path
given to os.Create is the path `downloads/dpd_distribution_HAZ_` followed by `v` and
`.zip` after cleaning by filepath.Join, which is that very path whenever `v` has no
`/` in it. -/
theorem main_download_url_and_path (env : Env) (fs : FS) (v : Bytes)
    (hv : (getCurrentVersion env.Get ⟨fs, []⟩).1 = Except.ok v) :
    Event.call (baseURL ++ utf8 "?version=" ++ v) v ∈ (main env fs).trace
      ∧ (∀ url ver, Event.call url ver ∈ (main env fs).trace →
          url = baseURL ++ utf8 "?version=" ++ v ∧ ver = v)
      ∧ (∀ url, Event.request url ∈ (main env fs).trace →
          url = baseURL ∨ url = baseURL ++ utf8 "?version=" ++ v)
      ∧ (∀ path, Event.create path ∈ (main env fs).trace →
          path = Clean (utf8 "downloads/dpd_distribution_HAZ_" ++ v ++ utf8 ".zip"))
      ∧ (47 ∉ v → ∀ path, Event.create path ∈ (main env fs).trace →
          path = utf8 "downloads/dpd_distribution_HAZ_" ++ v ++ utf8 ".zip") := by
  have hall : ∀ e, e ∈ (main env fs).trace →
      e ∈ env.Get.sent baseURL ++ [Event.print (Msg.currentVersion v)]
        ∨ e = Event.call (downloadURL v) v ∨ e = Event.request (downloadURL v)
        ∨ (∃ target, e = Event.redirect target)
        ∨ e = Event.mkdirAll downloadDir
        ∨ e = Event.create (Join [downloadDir, filename v])
        ∨ (∃ m, e = Event.print m) ∨ e = Event.sleep 5 := by
    intro e he
    rw [main_of_version env fs v hv] at he
    exact retryLoop_events env (downloadURL v) v _ 0 _ e he
  have hstart : ∀ e, e ∈ env.Get.sent baseURL ++ [Event.print (Msg.currentVersion v)] →
      e = Event.request baseURL ∨ (∃ target, e = Event.redirect target)
        ∨ ∃ m, e = Event.print m := by
    intro e he
    rcases List.mem_append.mp he with h | h
    · rcases Exchange.mem_sent env.Get baseURL e h with h | h
      · left; exact h
      · right; left; exact h
    · right; right; exact ⟨_, List.mem_singleton.mp h⟩
  have hcreate : ∀ path, Event.create path ∈ (main env fs).trace →
      path = Join [downloadDir, filename v] := by
    intro path hp
    rcases hall _ hp with h | h | h | ⟨u, h⟩ | h | h | ⟨m, h⟩ | h
    · rcases hstart _ h with h | ⟨u, h⟩ | ⟨m, h⟩ <;> cases h
    · cases h
    · cases h
    · cases h
    · cases h
    · injection h
    · cases h
    · cases h
  have hjoin : Join [downloadDir, filename v]
      = Clean (utf8 "downloads/dpd_distribution_HAZ_" ++ v ++ utf8 ".zip") := by
    have hdir : [downloadDir, filename v].dropWhile (fun e => e = [])
        = [downloadDir, filename v] := by
      have : downloadDir = [100, 111, 119, 110, 108, 111, 97, 100, 115] := by decide
      rw [this]; rfl
    have hpath : utf8 "downloads/dpd_distribution_HAZ_"
        = downloadDir ++ 47 :: utf8 "dpd_distribution_HAZ_" := by decide
    unfold Join
    rw [hdir]
    simp only [joinSep, filename, hpath, List.append_assoc, List.cons_append]
  refine ⟨?_, ?_, ?_, ?_, ?_⟩
  · rw [main_of_version env fs v hv]
    exact retryLoop_first_call env (downloadURL v) v maxRetries _
  · intro url ver hc
    rcases hall _ hc with h | h | h | ⟨u, h⟩ | h | h | ⟨m, h⟩ | h
    · rcases hstart _ h with h | ⟨u, h⟩ | ⟨m, h⟩ <;> cases h
    · injection h with h1 h2
      exact ⟨h1, h2⟩
    · cases h
    · cases h
    · cases h
    · cases h
    · cases h
    · cases h
  · intro url hr
    rcases hall _ hr with h | h | h | ⟨u, h⟩ | h | h | ⟨m, h⟩ | h
    · rcases hstart _ h with h | ⟨u, h⟩ | ⟨m, h⟩
      · injection h with h1
        exact Or.inl h1
      · cases h
      · cases h
    · cases h
    · injection h with h1
      exact Or.inr h1
    · cases h
    · cases h
    · cases h
    · cases h
    · cases h
  · intro path hp
    rw [hcreate path hp, hjoin]
  · intro h47 path hp
    rw [hcreate path hp, filename_path v h47]

theorem main_download_url_and_path_witness :
    Event.call (baseURL ++ utf8 "?version=" ++ utf8 "5.2.1") (utf8 "5.2.1")
        ∈ (main ⟨Exchange.answer 200 (utf8 "\x7b\"version\":\"5.2.1\"\x7d"),
            fun _ => Attempt.answer 200 [80, 75]⟩ ⟨[], []⟩).trace
      ∧ ∀ path, Event.create path
          ∈ (main ⟨Exchange.answer 200 (utf8 "\x7b\"version\":\"5.2.1\"\x7d"),
              fun _ => Attempt.answer 200 [80, 75]⟩ ⟨[], []⟩).trace →
          path = utf8 "downloads/dpd_distribution_HAZ_" ++ utf8 "5.2.1" ++ utf8 ".zip" :=
  ⟨(main_download_url_and_path
      ⟨Exchange.answer 200 (utf8 "\x7b\"version\":\"5.2.1\"\x7d"),
        fun _ => Attempt.answer 200 [80, 75]⟩ ⟨[], []⟩ (utf8 "5.2.1") rfl).1,
   (main_download_url_and_path
      ⟨Exchange.answer 200 (utf8 "\x7b\"version\":\"5.2.1\"\x7d"),
        fun _ => Attempt.answer 200 [80, 75]⟩ ⟨[], []⟩ (utf8 "5.2.1") rfl).2.2.2.2
      (by decide)⟩

/-- C6 as stated fails: for the version `1/../2` the destination path is not
`downloads/dpd_distribution_HAZ_1/../2.zip`; filepath.Join cleans it to
`downloads/2.zip`, and that is the file main creates and writes. -/
theorem main_path_is_cleaned :
    (main ⟨Exchange.answer 200 (utf8 "\x7b\"version\":\"1/../2\"\x7d"),
        fun _ => Attempt.answer 200 [80, 75]⟩ ⟨[], []⟩).fs.files
        = [(utf8 "downloads/2.zip", [80, 75])]
      ∧ Event.create (utf8 "downloads/2.zip")
          ∈ (main ⟨Exchange.answer 200 (utf8 "\x7b\"version\":\"1/../2\"\x7d"),
              fun _ => Attempt.answer 200 [80, 75]⟩ ⟨[], []⟩).trace
      ∧ utf8 "downloads/2.zip"
          ≠ utf8 "downloads/dpd_distribution_HAZ_" ++ utf8 "1/../2" ++ utf8 ".zip" := by
  refine ⟨by decide, by decide, by decide⟩

end DpdDownloader
